import Mathlib

/-!
Verification of the Ragner embedding indexing & retrieval engine.

This development shallowly embeds the core of the repository in Lean:

* `TXTLoader._dividir_em_chunks` (infrastructure/file_loaders/txt_loader.py)
  becomes `dividirEmChunks`, with the inner `while` loop modelled by the
  fuel-indexed `sliceLoop` (the fuel returns `none` exactly when the Python
  loop has not finished within that many iterations, so
  `∀ fuel, … = none` states non-termination of the source loop).
* `FaissVectorStore` (infrastructure/vector_store/faiss.py) becomes
  `FaissState` with `adicionarEmbeddings`, `buscarChunksSimilares`,
  `reiniciarIndice`, `reiniciarIndiceComDocumentosExistentes`,
  `obterEstatisticas`, `inicializarIndice`.  The FAISS flat L2 index is
  modelled as the list of stored vectors (position = FAISS id) and exact
  brute-force search with squared L2 distance over Int coordinates; the
  on-disk copy written by `salvar_indice` is not modelled separately (the
  code saves after every mutation, so memory and disk agree within a run).
* the SQLite store (sqlite_management.py / SQLiteChunkRepository.py)
  becomes `Db` with association-list tables; a stored chunk embedding is
  `Option Blob` where `Blob := Option (List Int)` abstracts the serialized
  JSON text: `some v` is a blob that deserializes to vector `v`, `none` a
  non-NULL blob on which `json.loads`/the dimension check fails.
* `IndexarDocumentosUseCase` (usecases/indexar_documentos_usecase.py)
  becomes `indexarDocumento` / `indexarPasta` / `verificarSincronizacaoFaiss`
  / `verificarArquivosDeletados` over a combined `SysState`; Python's
  `uuid.uuid4()` identities are modelled by a fresh-id counter `nextId`;
  the embedding provider and the possibility of a failing SQLite UPDATE
  are an explicit environment `Env`.
* `BuscarContextoUseCase.executar` (usecases/buscar_contexto_usecase.py)
  becomes `executar`.
* the removal branch of `recarregar_arquivos_da_pasta`
  (presentation/cli/controllers.py) becomes `recarregarArquivosDaPasta`.
-/

namespace Ragner

/-! ## TextSegmenter: `TXTLoader._dividir_em_chunks` -/
/-- `texto.split(chr(10))`: split a character list on the newline
character, keeping empty pieces, as Python `str.split` does. -/
def splitNl : List Char → List (List Char)
  | [] => [[]]
  | c :: rest =>
    if c = '\n' then [] :: splitNl rest
    else
      match splitNl rest with
      | [] => [[c]]
      | h :: t => (c :: h) :: t

/-- The body of the `while i < len(paragrafo)` loop of
`_dividir_em_chunks` (txt_loader.py lines 92-97): the next value of `i`
after one iteration.  `fim = min(i + tamanho, len p)`; then
`i = fim - sobreposicao`, clamped to `0` when negative — truncated Nat
subtraction gives exactly that clamp. -/
def nextI (len tamanho sobreposicao i : Nat) : Nat :=
  min (i + tamanho) len - sobreposicao

/-- The `while i < len(paragrafo)` loop of `_dividir_em_chunks`
(txt_loader.py lines 91-97), with fuel: `none` means the loop did not
finish within `fuel` iterations.  Every iteration appends the slice
`paragrafo[i:fim]` and steps `i` by `nextI`. -/
def sliceLoop (tamanho sobreposicao : Nat) (p : List Char) :
    Nat → Nat → List (List Char) → Option (List (List Char))
  | 0, _, _ => none
  | fuel + 1, i, chunks =>
    if i < p.length then
      let fim := min (i + tamanho) p.length
      sliceLoop tamanho sobreposicao p fuel (nextI p.length tamanho sobreposicao i)
        (chunks ++ [(p.drop i).take (fim - i)])
    else
      some chunks

/-- The `for paragrafo in paragrafos` loop of `_dividir_em_chunks`
(txt_loader.py lines 82-109), threading `chunk_atual` and the output
list; `none` propagates non-termination of the inner slicing loop. -/
def paraLoop (fuel tamanho sobreposicao : Nat) :
    List (List Char) → List Char → List (List Char) → Option (List (List Char))
  | [], chunkAtual, chunks =>
    some (if chunkAtual.isEmpty then chunks else chunks ++ [chunkAtual])
  | p :: ps, chunkAtual, chunks =>
    if p.length > tamanho then
      let chunks1 := if chunkAtual.isEmpty then chunks else chunks ++ [chunkAtual]
      match sliceLoop tamanho sobreposicao p fuel 0 [] with
      | none => none
      | some cs => paraLoop fuel tamanho sobreposicao ps [] (chunks1 ++ cs)
    else if chunkAtual.length + p.length + 1 > tamanho then
      paraLoop fuel tamanho sobreposicao ps p (chunks ++ [chunkAtual])
    else
      let ca := if chunkAtual.isEmpty then p else chunkAtual ++ '\n' :: p
      paraLoop fuel tamanho sobreposicao ps ca chunks

/-- `TXTLoader._dividir_em_chunks(texto)` (txt_loader.py lines 61-115)
with chunk size `tamanho` and overlap `sobreposicao`; `none` means the
call does not return within `fuel` iterations of the inner slicing
loop. -/
def dividirEmChunks (fuel : Nat) (texto : List Char) (tamanho sobreposicao : Nat) :
    Option (List (List Char)) :=
  if texto.length ≤ tamanho then some [texto]
  else paraLoop fuel tamanho sobreposicao (splitNl texto) [] []

/-! ## Data model: SQLite store and FAISS index -/
/-- An embedding vector.  The Python vectors are lists of floats; every
property claimed about the engine concerns lengths, identities and the
ordering of L2 distances, so coordinates are modelled as integers. -/
abbrev Vec := List Int

/-- A non-NULL serialized embedding (`chunk_embedding` column text):
`some v` deserializes (`json.loads` + dtype conversion) to `v`, `none`
models a blob on which deserialization fails. -/
abbrev Blob := Option Vec

/-- A row of the `Chunks` table.  `uuid.uuid4()` identities are Nats. -/
structure ChunkRow where
  chunk_uuid : Nat
  arquivo_uuid : Nat
  chunk_numero : Nat
  chunk_embedding : Option Blob
deriving Repr, DecidableEq

/-- A row of the `Arquivos` table.  The fields not read by the engine
(size, timestamps, type tag) are omitted; hashes are Nats. -/
structure DocRow where
  arquivo_uuid : Nat
  arquivo_nome : String
  arquivo_caminho : String
  arquivo_hash : Nat
deriving Repr, DecidableEq

/-- The relational store: `Arquivos`, `Chunks` and `dados_raw` tables
(only the `arquivo_uuid` of each raw row matters to the engine). -/
structure Db where
  docs : List DocRow
  chunks : List ChunkRow
  raws : List Nat
deriving Repr, DecidableEq

/-- `SELECT COUNT(*) FROM Chunks WHERE chunk_embedding IS NOT NULL`
(indexar_documentos_usecase.py line 78). -/
def contarChunksComEmbedding (db : Db) : Nat :=
  (db.chunks.filter (fun c => c.chunk_embedding.isSome)).length

/-- `FaissVectorStore` in-memory state.  `vectors` is the flat index
(position = FAISS internal id, `ntotal = vectors.length`);
`indexIsSome` models `self.index is not None` and `initFlag` models
`self._initialized` (they are tracked separately in the source). -/
structure FaissState where
  indexIsSome : Bool
  initFlag : Bool
  index_dimension : Nat
  vectors : List Vec
  id_to_index : List (Nat × Nat)
  index_to_id : List (Nat × Nat)
deriving Repr, DecidableEq

/-- `obter_estatisticas` result (faiss.py lines 370-388). -/
structure Estatisticas where
  inicializado : Bool
  vetores : Nat
  dimensao : Nat
deriving Repr, DecidableEq

/-- `FaissVectorStore.obter_estatisticas` (faiss.py lines 370-388). -/
def obterEstatisticas (f : FaissState) : Estatisticas :=
  if f.indexIsSome then ⟨true, f.vectors.length, f.index_dimension⟩
  else ⟨false, 0, 0⟩

/-- `FaissVectorStore.reiniciar_indice` (faiss.py lines 267-287): fresh
empty flat index of the given dimension, cleared mappings (the Python
method does not touch `_initialized`). -/
def reiniciarIndice (dimension : Nat) (f : FaissState) : FaissState :=
  { indexIsSome := true, initFlag := f.initFlag, index_dimension := dimension,
    vectors := [], id_to_index := [], index_to_id := [] }

/-- `FaissVectorStore._ensure_initialized` (faiss.py lines 123-133): if
not yet initialized, create a fresh index of the requested dimension (the
branch of `carregar_ou_criar_indice` with no index files on disk) and set
`_initialized`. -/
def ensureInitialized (f : FaissState) (dimension : Nat) : FaissState :=
  if f.initFlag then f
  else { indexIsSome := true, initFlag := true, index_dimension := dimension,
         vectors := [], id_to_index := [], index_to_id := [] }

/-- Result of `adicionar_embeddings`: the Python method returns a bool or
raises `ValueError` (the explicit first-vector dimension check, faiss.py
line 157); every other exception is caught inside and reported as a
`False` return. -/
inductive AddOutcome
  | raisedDim
  | retFalse
  | retTrue
deriving Repr, DecidableEq

/-- `FaissVectorStore.adicionar_embeddings` (faiss.py lines 135-204) on a
batch of `(chunk_uuid, vector)` pairs.  Faithful points: only the FIRST
vector's length is compared with the index dimension (raising on
mismatch); already-present keys are skipped against the pre-batch
mapping; `np.array(..., dtype=float32)` on a ragged list raises, and
`faiss.IndexFlatL2.add` raises when the common row length differs from
the index dimension — both exceptions are caught by the `except` block
(lines 200-204) which returns `False` with nothing added. -/
def adicionarEmbeddings (f : FaissState) (batch : List (Nat × Vec)) :
    AddOutcome × FaissState :=
  match batch with
  | [] => (.retFalse, f)
  | (_, v0) :: _ =>
    let f1 := ensureInitialized f v0.length
    if v0.length ≠ f1.index_dimension then (.raisedDim, f1)
    else
      let toAdd := batch.filter (fun p => (f1.id_to_index.lookup p.1).isNone)
      match toAdd with
      | [] => (.retTrue, f1)
      | (_, w0) :: _ =>
        if toAdd.any (fun p => p.2.length ≠ w0.length) then (.retFalse, f1)
        else if w0.length ≠ f1.index_dimension then (.retFalse, f1)
        else
          let start := f1.vectors.length
          (.retTrue,
            { f1 with
              vectors := f1.vectors ++ toAdd.map (·.2),
              id_to_index := f1.id_to_index ++ toAdd.enum.map (fun p => (p.2.1, start + p.1)),
              index_to_id := f1.index_to_id ++ toAdd.enum.map (fun p => (start + p.1, p.2.1)) })

/-- The per-row body of the rebuild loop (faiss.py lines 321-335): a row
is kept iff its blob deserializes and the vector length equals the index
dimension; otherwise the row is skipped with only a log line. -/
def decodeRow (dim : Nat) (c : ChunkRow) : Option (Nat × Vec) :=
  match c.chunk_embedding with
  | some (some v) => if v.length = dim then some (c.chunk_uuid, v) else none
  | _ => none

/-- `FaissVectorStore.reiniciar_indice_com_documentos_existentes`
(faiss.py lines 289-368): reset to the current dimension, read every
chunk row with a non-NULL embedding, keep exactly those whose blob
deserializes to a vector of the index dimension (deserialization
failures and wrong lengths are logged and skipped), and rebuild the
index and both mappings from the kept rows in order. -/
def reiniciarIndiceComDocumentosExistentes (db : Db) (f : FaissState) :
    Bool × FaissState :=
  let dim := f.index_dimension
  let f1 := reiniciarIndice dim f
  let rows := db.chunks.filter (fun c => c.chunk_embedding.isSome)
  if rows.isEmpty then (true, f1)
  else
    let decoded := rows.filterMap (decodeRow dim)
    if decoded.isEmpty then (true, f1)
    else
      (true,
        { f1 with
          vectors := decoded.map (·.2),
          id_to_index := decoded.enum.map (fun p => (p.2.1, p.1)),
          index_to_id := decoded.enum.map (fun p => (p.1, p.2.1)) })

/-! ## Similarity search: `buscar_chunks_similares` and `BuscarContextoUseCase` -/
/-- Squared L2 distance, the metric of `faiss.IndexFlatL2`. -/
def squaredDist (a b : Vec) : Int :=
  ((a.zip b).map (fun p => (p.1 - p.2) * (p.1 - p.2))).sum

/-- The vector stored at FAISS position `j`. -/
def vecAt (f : FaissState) (j : Nat) : Vec := f.vectors.getD j []

/-- Stand-in for the sentinel distance FAISS reports on the padding
entries (label -1) that fill the result arrays when `ntotal < k`. -/
def faissPadDist : Int := 2 ^ 128

/-- Result of `buscar_chunks_similares`: the Python method returns a
pair of lists, or raises `ValueError` when the query dimension differs
from the index dimension (faiss.py line 223). -/
inductive BuscaResult
  | ok (chunk_ids : List Nat) (scores : List Int)
  | raisedDim
deriving Repr, DecidableEq

/-- Comparison of search candidates by distance. -/
def distLe (a b : Nat × Int) : Prop := a.2 ≤ b.2

instance : DecidableRel distLe := fun a b => inferInstanceAs (Decidable (a.2 ≤ b.2))

instance : IsTotal (Nat × Int) distLe := ⟨fun a b => le_total a.2 b.2⟩

instance : IsTrans (Nat × Int) distLe := ⟨fun _ _ _ hab hbc => le_trans hab hbc⟩

/-- The `(position, distance)` candidate list of an exact FAISS search,
sorted ascending by distance, truncated to `k`. -/
def searchTop (f : FaissState) (q : Vec) (k : Nat) : List (Nat × Int) :=
  (List.insertionSort distLe
    ((List.range f.vectors.length).map (fun j => (j, squaredDist q (vecAt f j))))).take k

/-- `FaissVectorStore.buscar_chunks_similares` (faiss.py lines 206-244):
empty or missing index returns two empty lists; a query of the wrong
dimension raises; otherwise the ids are the `index_to_id` images of the
`k` nearest positions (positions absent from the mapping and the -1
padding entries are filtered out of the id list only) and the scores are
the `k` ascending distances, padded by FAISS when `ntotal < k`. -/
def buscarChunksSimilares (f : FaissState) (q : Vec) (k : Nat) : BuscaResult :=
  if f.indexIsSome = false ∨ f.vectors.length = 0 then .ok [] []
  else if q.length ≠ f.index_dimension then .raisedDim
  else
    let top := searchTop f q k
    .ok (top.filterMap (fun p => f.index_to_id.lookup p.1))
      (top.map (·.2) ++ List.replicate (k - top.length) faissPadDist)

/-- One retrieved item of `BuscarContextoUseCase.executar`: the chunk
id, its parent document id and the similarity score (the dictionary the
Python method builds also carries the chunk text and file name, which
are copies of fields of the joined rows). -/
structure Resultado where
  chunk_uuid : Nat
  arquivo_uuid : Nat
  score : Int
deriving Repr, DecidableEq

/-- `SELECT * FROM Chunks WHERE chunk_uuid = ?` (`buscar_chunk_por_id_db`). -/
def buscarChunkPorId (db : Db) (cid : Nat) : Option ChunkRow :=
  db.chunks.find? (fun c => c.chunk_uuid = cid)

/-- `SELECT * FROM Arquivos WHERE arquivo_uuid = ?` (`ler_arquivo_db`). -/
def lerArquivo (db : Db) (auuid : Nat) : Option DocRow :=
  db.docs.find? (fun d => d.arquivo_uuid = auuid)

/-- The `for i, chunk_id in enumerate(chunk_ids)` loop of
`BuscarContextoUseCase.executar` (buscar_contexto_usecase.py lines
52-90): drop results whose score exceeds the threshold, skip ids whose
chunk row or parent document row is missing, keep the rest in order. -/
def executarLoop (db : Db) (scores : List Int) (limite : Int) :
    Nat → List Nat → List Resultado
  | _, [] => []
  | i, cid :: rest =>
    if scores.getD i 0 > limite then executarLoop db scores limite (i + 1) rest
    else
      match buscarChunkPorId db cid with
      | none => executarLoop db scores limite (i + 1) rest
      | some c =>
        match lerArquivo db c.arquivo_uuid with
        | none => executarLoop db scores limite (i + 1) rest
        | some d => ⟨cid, d.arquivo_uuid, scores.getD i 0⟩ ::
            executarLoop db scores limite (i + 1) rest

/-- `BuscarContextoUseCase.executar` (buscar_contexto_usecase.py lines
31-97); a raised search error is caught by the `except` block and
reported as an empty result list. -/
def executar (f : FaissState) (db : Db) (q : Vec) (top_k : Nat) (limite : Int) :
    List Resultado :=
  match buscarChunksSimilares f q top_k with
  | .raisedDim => []
  | .ok chunk_ids scores => executarLoop db scores limite 0 chunk_ids

/-- A concrete two-vector index of dimension 1 used to witness C5:
positions 0 and 1 hold vectors `[0]` and `[3]`, mapped to chunk keys 10
and 11. -/
def fC5 : FaissState :=
  ⟨true, true, 1, [[0], [3]], [(10, 0), (11, 1)], [(0, 10), (1, 11)]⟩

/-- A concrete store joining the two C5 witness chunks to one document. -/
def dbC5 : Db :=
  ⟨[⟨5, "a", "p", 1⟩], [⟨10, 5, 0, none⟩, ⟨11, 5, 1, none⟩], []⟩

/-! ## IndexingOrchestrator: `IndexarDocumentosUseCase` and the reload cycle -/
/-- The environment of an indexing run: the embedding provider
(`OpenAIGateway.gerar_embedding`; `none` models a raised provider error)
and whether the SQLite UPDATE behind `atualizar_embedding` fails with a
rollback and a `False` return for a given chunk uuid
(sqlite_management.py lines 427-435). -/
structure Env where
  embed : String → Option Vec
  updateFails : Nat → Bool

/-- A file on disk as the orchestrator sees it: name, path, extension
tag, content hash, the text extracted at step 5.2 (`none`: extraction
raised) and the chunk list produced by `loader.carregar` at step 5.3
(`none`: the loader raised). -/
structure Arquivo where
  nome : String
  caminho : String
  tipo : String
  hash : Nat
  raw : Option String
  chunks : Option (List String)

/-- The combined mutable state of a run: the SQLite store, the FAISS
store, and a fresh-identity counter standing in for `uuid.uuid4()`. -/
structure SysState where
  db : Db
  faiss : FaissState
  nextId : Nat
deriving Repr, DecidableEq

/-- Deletion of one document and its dependents:
`apagar_chunks_por_arquivo` + `apagar_dados_raw_por_arquivo_db` +
`apagar_arquivo_db` (the sequence used on modified and removed files). -/
def apagarDocumento (auuid : Nat) (db : Db) : Db :=
  { docs := db.docs.filter (fun d => d.arquivo_uuid ≠ auuid),
    chunks := db.chunks.filter (fun c => c.arquivo_uuid ≠ auuid),
    raws := db.raws.filter (fun a => a ≠ auuid) }

/-- The UPDATE of `atualizar_embedding` (SQLiteChunkRepository.py lines
122-129): serialize the vector and set it on the row with the given
uuid. -/
def atualizarEmbeddingDb (cuuid : Nat) (v : Vec) (chunks : List ChunkRow) :
    List ChunkRow :=
  chunks.map (fun c =>
    if c.chunk_uuid = cuuid then { c with chunk_embedding := some (some v) } else c)

/-- The `for i, texto_chunk in enumerate(chunks_texto)` loop of
`indexar_documento` (indexar_documentos_usecase.py lines 317-368): save
the chunk row, call the provider; on provider failure log and continue;
on success call `atualizar_embedding` — whose boolean result is ignored
by the caller — and queue the chunk for the vector store. -/
def processarChunks (env : Env) (auuid : Nat) :
    List String → Nat → SysState → List (Nat × Vec) → SysState × List (Nat × Vec)
  | [], _, s, queue => (s, queue)
  | texto :: rest, i, s, queue =>
    let cuuid := s.nextId
    let s1 : SysState := { s with
      db := { s.db with chunks := s.db.chunks ++ [⟨cuuid, auuid, i, none⟩] },
      nextId := s.nextId + 1 }
    match env.embed texto with
    | none => processarChunks env auuid rest (i + 1) s1 queue
    | some v =>
      let s2 : SysState :=
        if env.updateFails cuuid then s1
        else { s1 with db := { s1.db with
          chunks := atualizarEmbeddingDb cuuid v s1.db.chunks } }
      processarChunks env auuid rest (i + 1) s2 (queue ++ [(cuuid, v)])

/-- What `indexar_documento` reports: its `(n_docs, n_chunks)` return
value plus the number of embedding-provider calls made. -/
structure IndexarResultado where
  nDocs : Nat
  nChunks : Nat
  embedCalls : Nat
deriving Repr, DecidableEq

/-- The tail of `indexar_documento` after the existing-document check
(indexar_documentos_usecase.py lines 222-402): create the Document row,
extract (a raising extraction is caught by the outer `except`, which
returns `(0, 0)` — the rows already written stay), store the raw
content, run the chunk loop, and finally add the queued embeddings to
FAISS as one batch; a `ValueError` raised by the batch-add is also
caught by the outer `except` with the store mutations kept. -/
def indexarDocumentoNovo (env : Env) (file : Arquivo) (s : SysState) :
    IndexarResultado × SysState :=
  let auuid := s.nextId
  let s1 : SysState := { s with
    db := { s.db with
      docs := s.db.docs ++ [⟨auuid, file.nome, file.caminho, file.hash⟩] },
    nextId := s.nextId + 1 }
  match file.raw with
  | none => (⟨0, 0, 0⟩, s1)
  | some _ =>
    let s2 : SysState := { s1 with db := { s1.db with raws := s1.db.raws ++ [auuid] } }
    match file.chunks with
    | none => (⟨0, 0, 0⟩, s2)
    | some textos =>
      let r := processarChunks env auuid textos 0 s2 []
      if r.2.isEmpty then (⟨1, 0, textos.length⟩, r.1)
      else
        match adicionarEmbeddings r.1.faiss r.2 with
        | (.raisedDim, f2) => (⟨0, 0, textos.length⟩, { r.1 with faiss := f2 })
        | (.retFalse, f2) => (⟨1, r.2.length, textos.length⟩, { r.1 with faiss := f2 })
        | (.retTrue, f2) => (⟨1, r.2.length, textos.length⟩, { r.1 with faiss := f2 })

/-- `IndexarDocumentosUseCase.indexar_documento`
(indexar_documentos_usecase.py lines 177-402): unsupported extensions
are skipped; the FIRST stored document with the same file name is
compared by hash — equal hash is a no-op, a different hash deletes the
old document, its chunks and raw record before reindexing. -/
def indexarDocumento (env : Env) (file : Arquivo) (s : SysState) :
    IndexarResultado × SysState :=
  if file.tipo ∉ (["pdf", "docx", "txt"] : List String) then (⟨0, 0, 0⟩, s)
  else
    match s.db.docs.find? (fun d => d.arquivo_nome = file.nome) with
    | some d =>
      if d.arquivo_hash = file.hash then (⟨0, 0, 0⟩, s)
      else indexarDocumentoNovo env file
        { s with db := apagarDocumento d.arquivo_uuid s.db }
    | none => indexarDocumentoNovo env file s

/-- `IndexarDocumentosUseCase.verificar_sincronizacao_faiss`
(indexar_documentos_usecase.py lines 60-110): compare the FAISS vector
count with the store's count of chunks with a non-NULL embedding and
rebuild the index from the store when they differ. -/
def verificarSincronizacaoFaiss (s : SysState) : Bool × SysState :=
  if (obterEstatisticas s.faiss).vetores ≠ contarChunksComEmbedding s.db then
    let r := reiniciarIndiceComDocumentosExistentes s.db s.faiss
    (r.1, { s with faiss := r.2 })
  else (true, s)

/-- The `for i, arquivo in enumerate(todos_arquivos)` loop of
`indexar_pasta` (indexar_documentos_usecase.py lines 158-165). -/
def indexarPastaLoop (env : Env) :
    List Arquivo → SysState → Nat × Nat → (Nat × Nat) × SysState
  | [], s, tot => (tot, s)
  | file :: rest, s, tot =>
    let r := indexarDocumento env file s
    indexarPastaLoop env rest r.2 (tot.1 + r.1.nDocs, tot.2 + r.1.nChunks)

/-- `IndexarDocumentosUseCase.indexar_pasta`
(indexar_documentos_usecase.py lines 112-175): the synchronization
check runs FIRST, then each discovered file is indexed in order.  No
check runs after the loop. -/
def indexarPasta (env : Env) (files : List Arquivo) (s : SysState) :
    (Nat × Nat) × SysState :=
  indexarPastaLoop env files (verificarSincronizacaoFaiss s).2 (0, 0)

/-- `FaissVectorStore.inicializar_indice` (faiss.py lines 56-86) with
the durable copy abstracted away: the code saves the index after every
mutation, so within a run the loaded copy equals the in-memory one; an
index that was never created is created empty with the default
dimension 1536. -/
def inicializarIndice (f : FaissState) : FaissState :=
  if f.indexIsSome then { f with initFlag := true }
  else { indexIsSome := true, initFlag := true, index_dimension := 1536,
         vectors := [], id_to_index := [], index_to_id := [] }

/-- The `for documento in documentos` loop of
`verificar_arquivos_deletados` (indexar_documentos_usecase.py lines
437-460): every stored document whose path no longer exists on disk is
deleted from the store together with its chunks and raw record; FAISS
is deliberately not touched here. -/
def verificarArquivosDeletadosLoop (onDisk : String → Bool) :
    List DocRow → SysState → Nat → Nat × SysState
  | [], s, n => (n, s)
  | d :: rest, s, n =>
    if onDisk d.arquivo_caminho then verificarArquivosDeletadosLoop onDisk rest s n
    else verificarArquivosDeletadosLoop onDisk rest
      { s with db := apagarDocumento d.arquivo_uuid s.db } (n + 1)

/-- `IndexarDocumentosUseCase.verificar_arquivos_deletados`
(indexar_documentos_usecase.py lines 404-469). -/
def verificarArquivosDeletados (onDisk : String → Bool) (s : SysState) :
    Nat × SysState :=
  verificarArquivosDeletadosLoop onDisk s.db.docs s 0

/-- The reload cycle `recarregar_arquivos_da_pasta` (controllers.py
lines 187-308) in the removal scenario of C9 — no new or modified
documents pending, so step 5 processes nothing: step 3 deletes the
stored documents of the files gone from disk, step 6 initializes the
index and runs the synchronization check, which rebuilds exactly when
the vector count differs from the store count.  The returned flag
records whether that rebuild branch was taken. -/
def recarregarArquivosDaPasta (onDisk : String → Bool) (s : SysState) :
    Bool × SysState :=
  let s1 := (verificarArquivosDeletados onDisk s).2
  let s2 : SysState := { s1 with faiss := inicializarIndice s1.faiss }
  (decide ((obterEstatisticas s2.faiss).vetores ≠ contarChunksComEmbedding s2.db),
    (verificarSincronizacaoFaiss s2).2)

/-- The queue of a document's chunk loop as a function of the fresh-id
counter at loop entry: the chunks whose provider call succeeded, keyed
by their fresh uuids — independently of whether the embedding UPDATE
reported success. -/
def queueSpec (env : Env) : Nat → List String → List (Nat × Vec)
  | _, [] => []
  | nid, texto :: rest =>
    match env.embed texto with
    | none => queueSpec env (nid + 1) rest
    | some v => (nid, v) :: queueSpec env (nid + 1) rest

/-- Concrete environment whose provider always fails. -/
def envFalha : Env := ⟨fun _ => none, fun _ => false⟩

/-- Concrete environment with a 2-dimensional provider and reliable
store writes. -/
def envOk2 : Env := ⟨fun _ => some [1, 2], fun _ => false⟩

/-- Concrete environment with a 2-dimensional provider whose embedding
UPDATE always reports failure. -/
def envUpdateFalha : Env := ⟨fun _ => some [1, 2], fun _ => true⟩

/-- An embedding provider that always returns vectors of one fixed
dimension `D` (the normal situation with one model), together with a
store whose embedding UPDATE never fails. -/
def envBemComportado (env : Env) (D : Nat) : Prop :=
  (∀ t v, env.embed t = some v → v.length = D) ∧
  (∀ u, env.updateFails u = false)

/-- The healthy-state invariant of an indexing run: the FAISS index is
created and initialized with dimension `D`, the store's embedded-chunk
count equals the vector count, and every identity already used (mapping
keys and chunk uuids) is below the fresh-id counter. -/
def estadoBom (s : SysState) (D : Nat) : Prop :=
  s.faiss.indexIsSome = true ∧ s.faiss.initFlag = true ∧
  s.faiss.index_dimension = D ∧
  contarChunksComEmbedding s.db = s.faiss.vectors.length ∧
  (∀ p ∈ s.faiss.id_to_index, (p : Nat × Nat).1 < s.nextId) ∧
  (∀ c ∈ s.db.chunks, c.chunk_uuid < s.nextId)

theorem splitNl_no_newline (l : List Char) (h : '\n' ∉ l) : splitNl l = [l] := by
  induction l with
  | nil => rfl
  | cons c rest ih =>
    have hc : ¬ c = '\n' := fun hcc => h (hcc ▸ List.mem_cons_self c rest)
    have hr : '\n' ∉ rest := fun hm => h (List.mem_cons_of_mem c hm)
    simp only [splitNl, if_neg hc, ih hr]

theorem sliceLoop_stuck (tamanho sobreposicao : Nat) (p : List Char) (i : Nat)
    (hlt : i < p.length) (hfix : nextI p.length tamanho sobreposicao i = i) :
    ∀ fuel chunks, sliceLoop tamanho sobreposicao p fuel i chunks = none := by
  intro fuel
  induction fuel with
  | zero => intro chunks; rfl
  | succ n ih =>
    intro chunks
    simp only [sliceLoop, if_pos hlt, hfix]
    exact ih _

theorem sliceLoop_none_step (tamanho sobreposicao : Nat) (p : List Char) (i : Nat)
    (hlt : i < p.length)
    (hnext : ∀ fuel chunks,
      sliceLoop tamanho sobreposicao p fuel (nextI p.length tamanho sobreposicao i) chunks = none) :
    ∀ fuel chunks, sliceLoop tamanho sobreposicao p fuel i chunks = none := by
  intro fuel chunks
  cases fuel with
  | zero => rfl
  | succ n =>
    simp only [sliceLoop, if_pos hlt]
    exact hnext n _

/-- When the whole text is one paragraph longer than the chunk size, the
function reduces to the inner slicing loop started at offset 0, so a
diverging slicing loop makes the whole call diverge. -/
theorem dividirEmChunks_none_of_sliceLoop_none (fuel tamanho sobreposicao : Nat)
    (texto : List Char) (hgt : tamanho < texto.length) (hn : '\n' ∉ texto)
    (h : sliceLoop tamanho sobreposicao texto fuel 0 [] = none) :
    dividirEmChunks fuel texto tamanho sobreposicao = none := by
  unfold dividirEmChunks
  rw [if_neg (by omega), splitNl_no_newline _ hn]
  unfold paraLoop
  rw [if_pos hgt]
  simp only [List.isEmpty_nil, if_pos rfl, h]

/-- C2: the claim states that for every text, every `max_size > 0` and every
overlap (including `overlap >= max_size`) the segmentation terminates, the
window advancing at least one character per step or the iteration count being
bounded.  The code has no such guard: on the 3-character single-paragraph text
"aaa" with `max_size = 2`, the slicing loop never terminates, both for
`overlap = 2` (the pathological `overlap >= max_size` case, stuck at offset 0)
and for the ordinary `overlap = 1` (stuck at offset 2), so
`_dividir_em_chunks` runs out of any amount of fuel. -/
theorem claim_C2_segmentacao_diverge :
    (∀ fuel, dividirEmChunks fuel (List.replicate 3 'a') 2 2 = none) ∧
    (∀ fuel, dividirEmChunks fuel (List.replicate 3 'a') 2 1 = none) := by
  constructor
  · intro fuel
    apply dividirEmChunks_none_of_sliceLoop_none
    · simp
    · simp [List.mem_replicate]
    · apply sliceLoop_stuck
      · simp
      · simp [nextI]
  · intro fuel
    apply dividirEmChunks_none_of_sliceLoop_none
    · simp
    · simp [List.mem_replicate]
    · apply sliceLoop_none_step _ _ _ 0 (by simp)
      intro f c
      have h1 : nextI (List.replicate 3 'a').length 2 1 0 = 1 := by simp [nextI]
      rw [h1]
      revert c
      apply sliceLoop_none_step _ _ _ 1 (by simp)
      intro f c
      have h2 : nextI (List.replicate 3 'a').length 2 1 1 = 2 := by simp [nextI]
      rw [h2]
      revert c
      apply sliceLoop_stuck _ _ _ 2 (by simp) (by simp [nextI])

/-- C3: the claim states that segmenting a 2,500-character single-paragraph
text with `max_size = 1000`, `overlap = 200` yields 3 chunks starting at
offsets 0, 800, 1600.  The window offsets do start 0, 800, 1600 (the spec
captures the intent), but the loop then moves to offset 2300 and stays there
forever (`min(2300+1000, 2500) - 200 = 2300`), re-emitting the final
200-character slice: the call never returns, for any amount of fuel. -/
theorem claim_C3_cenario_2500_diverge :
    (∀ fuel, dividirEmChunks fuel (List.replicate 2500 'a') 1000 200 = none) ∧
    nextI 2500 1000 200 0 = 800 ∧ nextI 2500 1000 200 800 = 1600 ∧
    nextI 2500 1000 200 1600 = 2300 ∧ nextI 2500 1000 200 2300 = 2300 := by
  have hlen : (List.replicate 2500 'a').length = 2500 := List.length_replicate 2500 'a'
  refine ⟨?_, by decide, by decide, by decide, by decide⟩
  intro fuel
  apply dividirEmChunks_none_of_sliceLoop_none
  · rw [hlen]; decide
  · intro hmem
    exact absurd (List.eq_of_mem_replicate hmem) (by decide)
  · apply sliceLoop_none_step _ _ _ 0 (by rw [hlen]; decide)
    intro f c
    have h1 : nextI (List.replicate 2500 'a').length 1000 200 0 = 800 := by
      rw [hlen]; decide
    rw [h1]
    revert c
    apply sliceLoop_none_step _ _ _ 800 (by rw [hlen]; decide)
    intro f c
    have h2 : nextI (List.replicate 2500 'a').length 1000 200 800 = 1600 := by
      rw [hlen]; decide
    rw [h2]
    revert c
    apply sliceLoop_none_step _ _ _ 1600 (by rw [hlen]; decide)
    intro f c
    have h3 : nextI (List.replicate 2500 'a').length 1000 200 1600 = 2300 := by
      rw [hlen]; decide
    rw [h3]
    revert c
    apply sliceLoop_stuck _ _ _ 2300 (by rw [hlen]; decide) (by rw [hlen]; decide)

/-! ## Helper lemmas on lists -/
theorem filterMap_filter_of_none {α β : Type} (p : α → Bool) (g : α → Option β)
    (h : ∀ a, p a = false → g a = none) (l : List α) :
    (l.filter p).filterMap g = l.filterMap g := by
  induction l with
  | nil => rfl
  | cons a t ih =>
    by_cases hp : p a = true
    · simp [List.filter_cons, hp, List.filterMap_cons, ih]
    · have hpa : p a = false := by simpa using hp
      simp [List.filter_cons, hpa, List.filterMap_cons, h a hpa, ih]

theorem length_filterMap_eq_length_filter {α β : Type} (g : α → Option β) (l : List α) :
    (l.filterMap g).length = (l.filter (fun a => (g a).isSome)).length := by
  induction l with
  | nil => rfl
  | cons a t ih =>
    cases hg : g a <;> simp [List.filterMap_cons, hg, List.filter_cons, ih]

theorem snd_mem_of_mem_enum {α : Type} {l : List α} {p : Nat × α} (h : p ∈ l.enum) :
    p.2 ∈ l := by
  have hmap : l.enum.map Prod.snd = l := List.enum_map_snd l
  rw [← hmap]
  exact List.mem_map_of_mem Prod.snd h

/-! ## Rebuild characterization -/
theorem decodeRow_none_of_no_emb (dim : Nat) (c : ChunkRow)
    (hc : c.chunk_embedding.isSome = false) : decodeRow dim c = none := by
  unfold decodeRow
  cases hce : c.chunk_embedding with
  | none => rfl
  | some b => rw [hce] at hc; simp at hc

theorem decodeRow_eq_some (dim : Nat) (c : ChunkRow) (u : Nat) (v : Vec) :
    decodeRow dim c = some (u, v) ↔
      c.chunk_uuid = u ∧ c.chunk_embedding = some (some v) ∧ v.length = dim := by
  unfold decodeRow
  cases hce : c.chunk_embedding with
  | none => simp
  | some b =>
    cases b with
    | none => simp
    | some w =>
      by_cases hl : w.length = dim
      · simp only [if_pos hl]
        constructor
        · intro h
          injection h with h'
          injection h' with h1 h2
          exact ⟨h1, by rw [h2] at hl ⊢; exact ⟨rfl, hl⟩⟩
        · rintro ⟨h1, h2, h3⟩
          injection h2 with h2'
          injection h2' with h2''
          rw [h1, h2'']
      · simp only [if_neg hl]
        constructor
        · intro h; exact absurd h (by simp)
        · rintro ⟨h1, h2, h3⟩
          injection h2 with h2'
          injection h2' with h2''
          exact absurd (h2'' ▸ h3) hl

theorem rebuild_filterMap_eq (db : Db) (dim : Nat) :
    (db.chunks.filter (fun c => c.chunk_embedding.isSome)).filterMap (decodeRow dim) =
      db.chunks.filterMap (decodeRow dim) :=
  filterMap_filter_of_none _ _ (decodeRow_none_of_no_emb dim) _

theorem rebuild_fst (db : Db) (f : FaissState) :
    (reiniciarIndiceComDocumentosExistentes db f).1 = true := by
  unfold reiniciarIndiceComDocumentosExistentes
  dsimp only
  split
  · rfl
  · split <;> rfl

theorem rebuild_vectors (db : Db) (f : FaissState) :
    (reiniciarIndiceComDocumentosExistentes db f).2.vectors =
      (db.chunks.filterMap (decodeRow f.index_dimension)).map (·.2) := by
  have hD := rebuild_filterMap_eq db f.index_dimension
  unfold reiniciarIndiceComDocumentosExistentes
  dsimp only
  split
  · next hrows =>
      rw [List.isEmpty_iff] at hrows
      rw [hrows] at hD
      simp only [List.filterMap_nil] at hD
      simp [reiniciarIndice, ← hD]
  · split
    · next hdec =>
        rw [List.isEmpty_iff] at hdec
        rw [hdec] at hD
        simp [reiniciarIndice, ← hD]
    · next hdec =>
        dsimp only
        rw [hD]

theorem rebuild_id_to_index (db : Db) (f : FaissState) (u j : Nat)
    (h : (u, j) ∈ (reiniciarIndiceComDocumentosExistentes db f).2.id_to_index) :
    ∃ c ∈ db.chunks, c.chunk_uuid = u ∧ ∃ v : Vec,
      c.chunk_embedding = some (some v) ∧ v.length = f.index_dimension := by
  have hD := rebuild_filterMap_eq db f.index_dimension
  unfold reiniciarIndiceComDocumentosExistentes at h
  dsimp only at h
  have hmem : ∃ v : Vec, (u, v) ∈ db.chunks.filterMap (decodeRow f.index_dimension) := by
    split at h
    · simp [reiniciarIndice] at h
    · split at h
      · simp [reiniciarIndice] at h
      · dsimp only at h
        rcases List.mem_map.mp h with ⟨p, hp, hpe⟩
        obtain ⟨i0, u0, v0⟩ := p
        have hsnd := snd_mem_of_mem_enum hp
        rw [hD] at hsnd
        simp only at hpe hsnd
        have hu : u0 = u := by
          have := congrArg Prod.fst hpe
          simpa using this
        exact ⟨v0, hu ▸ hsnd⟩
  rcases hmem with ⟨v, hv⟩
  rcases List.mem_filterMap.mp hv with ⟨c, hc, hdec⟩
  rcases (decodeRow_eq_some _ _ _ _).mp hdec with ⟨h1, h2, h3⟩
  exact ⟨c, hc, h1, v, h2, h3⟩

/-- C10: the full rebuild from the store adds exactly those stored
embeddings that deserialize to a vector of the current index dimension;
a stored embedding that fails to deserialize or has a different length
is skipped without failing the rebuild (the call still reports success),
so a rebuild can complete successfully with a vector count strictly
below the store's count of chunks with a non-null embedding.
Conjuncts: (1) the rebuild always reports success; (2) the new vector
count equals the number of rows whose blob deserializes to a vector of
the index dimension; (3) every key in the rebuilt key-to-position
mapping comes from such a row; (4) a concrete store holding one chunk
with an undecodable non-NULL blob rebuilds successfully to a strictly
smaller vector count. -/
theorem claim_C10_rebuild_filtra_embeddings_validos (db : Db) (f : FaissState) :
    (reiniciarIndiceComDocumentosExistentes db f).1 = true ∧
    (reiniciarIndiceComDocumentosExistentes db f).2.vectors.length =
      (db.chunks.filter (fun c => (decodeRow f.index_dimension c).isSome)).length ∧
    (∀ u j, (u, j) ∈ (reiniciarIndiceComDocumentosExistentes db f).2.id_to_index →
      ∃ c ∈ db.chunks, c.chunk_uuid = u ∧ ∃ v : Vec,
        c.chunk_embedding = some (some v) ∧ v.length = f.index_dimension) ∧
    (∃ db0 : Db, ∃ f0 : FaissState,
      (reiniciarIndiceComDocumentosExistentes db0 f0).1 = true ∧
      (reiniciarIndiceComDocumentosExistentes db0 f0).2.vectors.length <
        contarChunksComEmbedding db0) := by
  refine ⟨rebuild_fst db f, ?_, fun u j h => rebuild_id_to_index db f u j h, ?_⟩
  · rw [rebuild_vectors db f, List.length_map,
      length_filterMap_eq_length_filter (decodeRow f.index_dimension) db.chunks]
  · refine ⟨⟨[], [⟨0, 0, 0, some none⟩], []⟩, ⟨true, true, 2, [], [], []⟩, ?_, ?_⟩
    · rfl
    · decide

/-- C4: claimed — every vector in a batch whose length differs from the
index dimension fails the batch with DimensionMismatch surfaced
immediately.  Counterexample: on an initialized index of dimension 2
holding the key 7, the batch `[(1, [1,2]), (2, [9])]` contains the
mismatched vector `[9]`, yet `adicionar_embeddings` does not raise: the
ragged `np.array` conversion throws inside the `try`, the broad `except`
catches it, and the call merely returns `False` (nothing added). -/
theorem claim_C4_counterexample_mismatch_nao_levanta :
    adicionarEmbeddings ⟨true, true, 2, [[0, 0]], [(7, 0)], [(0, 7)]⟩
        [(1, [1, 2]), (2, [9])] =
      (.retFalse, ⟨true, true, 2, [[0, 0]], [(7, 0)], [(0, 7)]⟩) ∧
    (AddOutcome.retFalse ≠ AddOutcome.raisedDim) := by
  constructor
  · rfl
  · decide

/-- C4 amended: on an initialized index, (1) a FIRST vector whose length
differs from the index dimension raises DimensionMismatch (ValueError)
with nothing changed; (2) a batch whose keys are all already present is
an idempotent no-op returning success; (3) a mismatched vector anywhere
among the new items still fails the whole batch — the state is unchanged
(nothing partially added, truncated or padded) — but through a caught
exception reported as a `False` return, not a surfaced DimensionMismatch;
(4) when the first vector and all new vectors match the dimension, the
batch succeeds, skipping the already-present keys and appending exactly
the new vectors in order. -/
theorem claim_C4_amended_adicionar_embeddings (f : FaissState)
    (batch : List (Nat × Vec)) (hinit : f.initFlag = true) :
    (∀ u0 v0 rest, batch = (u0, v0) :: rest → v0.length ≠ f.index_dimension →
      adicionarEmbeddings f batch = (.raisedDim, f)) ∧
    (∀ u0 v0 rest, batch = (u0, v0) :: rest → v0.length = f.index_dimension →
      (∀ p ∈ batch, (f.id_to_index.lookup p.1).isSome) →
      adicionarEmbeddings f batch = (.retTrue, f)) ∧
    ((∃ p ∈ batch, f.id_to_index.lookup p.1 = none ∧ p.2.length ≠ f.index_dimension) →
      (adicionarEmbeddings f batch).2.vectors = f.vectors ∧
      (adicionarEmbeddings f batch).1 ≠ .retTrue) ∧
    (∀ u0 v0 rest, batch = (u0, v0) :: rest → v0.length = f.index_dimension →
      (∀ p ∈ batch, f.id_to_index.lookup p.1 = none → p.2.length = f.index_dimension) →
      (adicionarEmbeddings f batch).1 = .retTrue ∧
      (adicionarEmbeddings f batch).2.vectors =
        f.vectors ++ (batch.filter (fun p => (f.id_to_index.lookup p.1).isNone)).map (·.2)) := by
  have hens : ∀ d, ensureInitialized f d = f := by
    intro d; unfold ensureInitialized; rw [hinit]; simp
  refine ⟨?_, ?_, ?_, ?_⟩
  · intro u0 v0 rest hb hv0
    subst hb
    simp only [adicionarEmbeddings, hens]
    rw [if_pos hv0]
  · intro u0 v0 rest hb hv0 hall
    subst hb
    simp only [adicionarEmbeddings, hens]
    rw [if_neg (fun hne => hne hv0)]
    have hnil : ((u0, v0) :: rest).filter
        (fun p => (f.id_to_index.lookup p.1).isNone) = [] := by
      rw [List.filter_eq_nil_iff]
      intro a ha
      have hsome := hall a ha
      intro hcontra
      rw [Option.isNone_iff_eq_none] at hcontra
      rw [hcontra] at hsome
      simp at hsome
    rw [hnil]
  · rintro ⟨p, hpmem, hplook, hplen⟩
    cases batch with
    | nil => simp at hpmem
    | cons b0 rest =>
      obtain ⟨u0, v0⟩ := b0
      simp only [adicionarEmbeddings, hens]
      by_cases hv0 : v0.length = f.index_dimension
      · rw [if_neg (fun hne => hne hv0)]
        have hpf : p ∈ ((u0, v0) :: rest).filter
            (fun q => (f.id_to_index.lookup q.1).isNone) :=
          List.mem_filter.mpr ⟨hpmem, by simp [hplook]⟩
        cases hta : ((u0, v0) :: rest).filter
            (fun q => (f.id_to_index.lookup q.1).isNone) with
        | nil => rw [hta] at hpf; simp at hpf
        | cons q qt =>
          obtain ⟨q1, w0⟩ := q
          dsimp only
          by_cases hany : (((q1, w0) :: qt).any
              (fun r => decide (r.2.length ≠ w0.length))) = true
          · rw [if_pos hany]
            exact ⟨rfl, fun hcc => by simp at hcc⟩
          · rw [if_neg hany]
            have hanyf := Bool.eq_false_iff.mpr hany
            have hpw : p.2.length = w0.length := by
              rw [hta] at hpf
              have := List.any_eq_false.mp hanyf p hpf
              simpa using this
            have hw0 : w0.length ≠ f.index_dimension := fun hc => hplen (hpw ▸ hc)
            rw [if_pos hw0]
            exact ⟨rfl, fun hcc => by simp at hcc⟩
      · rw [if_pos hv0]
        exact ⟨rfl, fun hcc => by simp at hcc⟩
  · intro u0 v0 rest hb hv0 hgood
    subst hb
    simp only [adicionarEmbeddings, hens]
    rw [if_neg (fun hne => hne hv0)]
    cases hta : ((u0, v0) :: rest).filter
        (fun q => (f.id_to_index.lookup q.1).isNone) with
    | nil =>
      exact ⟨rfl, by simp⟩
    | cons q qt =>
      obtain ⟨q1, w0⟩ := q
      dsimp only
      have hmemdim : ∀ r ∈ (q1, w0) :: qt, (r : Nat × Vec).2.length = f.index_dimension := by
        intro r hr
        rw [← hta] at hr
        rcases List.mem_filter.mp hr with ⟨hr1, hr2⟩
        exact hgood r hr1 (Option.isNone_iff_eq_none.mp (by simpa using hr2))
      have hw0 : w0.length = f.index_dimension :=
        hmemdim (q1, w0) (List.mem_cons_self _ _)
      have hany : (((q1, w0) :: qt).any
          (fun r => decide (r.2.length ≠ w0.length))) = false := by
        rw [List.any_eq_false]
        intro r hr
        simp [hmemdim r hr, hw0]
      rw [if_neg (fun hcc => by rw [hany] at hcc; simp at hcc)]
      rw [if_neg (fun hne => hne hw0)]
      exact ⟨rfl, rfl⟩

/-- Witness for the amended C4: on a concrete initialized empty index of
dimension 2, adding one new well-dimensioned vector succeeds and appends
exactly that vector. -/
theorem claim_C4_amended_adicionar_embeddings_witness :
    (FaissState.mk true true 2 [] [] []).initFlag = true ∧
    (adicionarEmbeddings (FaissState.mk true true 2 [] [] []) [(3, [1, 2])]).1 =
      .retTrue ∧
    (adicionarEmbeddings (FaissState.mk true true 2 [] [] []) [(3, [1, 2])]).2.vectors =
      [[1, 2]] := by
  refine ⟨rfl, ?_, ?_⟩
  · exact ((claim_C4_amended_adicionar_embeddings (FaissState.mk true true 2 [] [] [])
      [(3, [1, 2])] rfl).2.2.2 3 [1, 2] [] rfl rfl
      (fun p hp hnone => by rw [List.mem_singleton] at hp; subst hp; rfl)).1
  · exact ((claim_C4_amended_adicionar_embeddings (FaissState.mk true true 2 [] [] [])
      [(3, [1, 2])] rfl).2.2.2 3 [1, 2] [] rfl rfl
      (fun p hp hnone => by rw [List.mem_singleton] at hp; subst hp; rfl)).2

theorem searchTop_length (f : FaissState) (q : Vec) (k : Nat) :
    (searchTop f q k).length = min k f.vectors.length := by
  unfold searchTop
  rw [List.length_take]
  congr 1
  rw [(List.perm_insertionSort distLe _).length_eq, List.length_map, List.length_range]

theorem searchTop_sorted (f : FaissState) (q : Vec) (k : Nat) :
    List.Sorted distLe (searchTop f q k) :=
  List.Pairwise.sublist (List.take_sublist _ _) (List.sorted_insertionSort distLe _)

theorem searchTop_mem (f : FaissState) (q : Vec) (k : Nat) (p : Nat × Int)
    (hp : p ∈ searchTop f q k) :
    p.1 < f.vectors.length ∧ p.2 = squaredDist q (vecAt f p.1) := by
  have h1 : p ∈ List.insertionSort distLe
      ((List.range f.vectors.length).map (fun j => (j, squaredDist q (vecAt f j)))) :=
    (List.take_sublist _ _).subset hp
  have h2 := (List.perm_insertionSort distLe _).mem_iff.mp h1
  rcases List.mem_map.mp h2 with ⟨j, hj, hje⟩
  rw [List.mem_range] at hj
  cases hje
  exact ⟨hj, rfl⟩

theorem filterMap_isSome_getD {α β : Type} (g : α → Option β) (l : List α)
    (h : ∀ p ∈ l, (g p).isSome) (d : α) (d' : β) :
    (l.filterMap g).length = l.length ∧
    ∀ i, i < l.length → g (l.getD i d) = some ((l.filterMap g).getD i d') := by
  induction l with
  | nil => exact ⟨rfl, fun i hi => absurd hi (by simp)⟩
  | cons a t ih =>
    have ha := h a (List.mem_cons_self a t)
    rcases Option.isSome_iff_exists.mp ha with ⟨b, hb⟩
    have ht := ih (fun p hp => h p (List.mem_cons_of_mem a hp))
    constructor
    · simp [List.filterMap_cons, hb, ht.1]
    · intro i hi
      cases i with
      | zero => simp [List.filterMap_cons, hb]
      | succ n =>
        have hn : n < t.length := by simpa using hi
        simpa [List.filterMap_cons, hb] using ht.2 n hn

theorem getD_mem_of_lt {α : Type} : ∀ (l : List α) (i : Nat), i < l.length →
    ∀ d : α, l.getD i d ∈ l := by
  intro l
  induction l with
  | nil => intro i hi d; simp at hi
  | cons a t ih =>
    intro i hi d
    cases i with
    | zero => simp
    | succ n =>
      rw [List.getD_cons_succ]
      exact List.mem_cons_of_mem a (ih n (by simpa using hi) d)

theorem executarLoop_mem (db : Db) (scores : List Int) (limite : Int) :
    ∀ (ids : List Nat) (i : Nat) (r : Resultado), r ∈ executarLoop db scores limite i ids →
      ∃ t, t < ids.length ∧ r.chunk_uuid = ids.getD t 0 ∧
        r.score = scores.getD (i + t) 0 ∧ r.score ≤ limite := by
  intro ids
  induction ids with
  | nil => intro i r hr; simp [executarLoop] at hr
  | cons cid rest ih =>
    intro i r hr
    unfold executarLoop at hr
    by_cases hsc : scores.getD i 0 > limite
    · rw [if_pos hsc] at hr
      rcases ih (i + 1) r hr with ⟨t, ht, h1, h2, h3⟩
      refine ⟨t + 1, by simpa using ht, by simpa using h1, ?_, h3⟩
      rw [h2]
      congr 1
      omega
    · rw [if_neg hsc] at hr
      cases hc : buscarChunkPorId db cid with
      | none =>
        rw [hc] at hr
        dsimp only at hr
        rcases ih (i + 1) r hr with ⟨t, ht, h1, h2, h3⟩
        refine ⟨t + 1, by simpa using ht, by simpa using h1, ?_, h3⟩
        rw [h2]; congr 1; omega
      | some c =>
        rw [hc] at hr
        dsimp only at hr
        cases hd : lerArquivo db c.arquivo_uuid with
        | none =>
          rw [hd] at hr
          dsimp only at hr
          rcases ih (i + 1) r hr with ⟨t, ht, h1, h2, h3⟩
          refine ⟨t + 1, by simpa using ht, by simpa using h1, ?_, h3⟩
          rw [h2]; congr 1; omega
        | some dd =>
          rw [hd] at hr
          dsimp only at hr
          rcases List.mem_cons.mp hr with hr0 | hrt
          · subst hr0
            exact ⟨0, by simp, by simp, by simp, not_lt.mp hsc⟩
          · rcases ih (i + 1) r hrt with ⟨t, ht, h1, h2, h3⟩
            refine ⟨t + 1, by simpa using ht, by simpa using h1, ?_, h3⟩
            rw [h2]; congr 1; omega

theorem executarLoop_sorted (db : Db) (scores : List Int) (limite : Int) :
    ∀ (ids : List Nat) (i : Nat),
      (∀ a b, i ≤ a → a ≤ b → b < i + ids.length → scores.getD a 0 ≤ scores.getD b 0) →
      List.Sorted (· ≤ ·) ((executarLoop db scores limite i ids).map (·.score)) := by
  intro ids
  induction ids with
  | nil => intro i _; simp [executarLoop]
  | cons cid rest ih =>
    intro i hmono
    have hmono' : ∀ a b, i + 1 ≤ a → a ≤ b → b < (i + 1) + rest.length →
        scores.getD a 0 ≤ scores.getD b 0 := by
      intro a b h1 h2 h3
      refine hmono a b (by omega) h2 (by simp; omega)
    unfold executarLoop
    by_cases hsc : scores.getD i 0 > limite
    · rw [if_pos hsc]; exact ih (i + 1) hmono'
    · rw [if_neg hsc]
      cases hc : buscarChunkPorId db cid with
      | none => exact ih (i + 1) hmono'
      | some c =>
        dsimp only
        cases hd : lerArquivo db c.arquivo_uuid with
        | none => exact ih (i + 1) hmono'
        | some dd =>
          dsimp only
          rw [List.map_cons, List.sorted_cons]
          refine ⟨?_, ih (i + 1) hmono'⟩
          intro b hb
          rcases List.mem_map.mp hb with ⟨r, hr, hre⟩
          rcases executarLoop_mem db scores limite rest (i + 1) r hr with ⟨t, ht, _, h2, _⟩
          rw [← hre]
          show scores.getD i 0 ≤ r.score
          rw [h2]
          exact hmono i (i + 1 + t) (le_refl i) (by omega) (by simp; omega)

theorem sorted_getD_mono (m : List Int) (hs : List.Sorted (· ≤ ·) m) (a b : Nat)
    (hab : a ≤ b) (hb : b < m.length) : m.getD a 0 ≤ m.getD b 0 := by
  rcases eq_or_lt_of_le hab with h | h
  · subst h; exact le_refl _
  · have ha : a < m.length := lt_trans h hb
    have hrel := List.pairwise_iff_getElem.mp hs a b ha hb h
    rw [List.getD_eq_getElem m 0 ha, List.getD_eq_getElem m 0 hb]
    exact hrel

/-- C5: on a non-empty index with a total position-to-key mapping and a
well-dimensioned query, `buscar_chunks_similares` returns ids paired
with the distances of their own vectors, ascending, with
`min k ntotal` ids (fewer than `k` when the index holds fewer vectors),
and `BuscarContextoUseCase.executar` preserves exactly this pairing and
ascending order through the threshold filter and the Chunk/Document
join. -/
theorem claim_C5_busca_ordenada_e_pareada (f : FaissState) (db : Db) (q : Vec)
    (k : Nat) (limite : Int)
    (hsome : f.indexIsSome = true) (hn : 0 < f.vectors.length)
    (hq : q.length = f.index_dimension)
    (hmap : ∀ j, j < f.vectors.length → (f.index_to_id.lookup j).isSome) :
    ∃ ids scores,
      buscarChunksSimilares f q k = .ok ids scores ∧
      ids.length = min k f.vectors.length ∧
      List.Sorted (· ≤ ·) (scores.take ids.length) ∧
      (∀ i, i < ids.length → ∃ j, j < f.vectors.length ∧
        f.index_to_id.lookup j = some (ids.getD i 0) ∧
        scores.getD i 0 = squaredDist q (vecAt f j)) ∧
      (∀ r ∈ executar f db q k limite,
        r.score ≤ limite ∧ ∃ j, j < f.vectors.length ∧
          f.index_to_id.lookup j = some r.chunk_uuid ∧
          r.score = squaredDist q (vecAt f j)) ∧
      List.Sorted (· ≤ ·) ((executar f db q k limite).map (·.score)) := by
  have hlen_top : (searchTop f q k).length = min k f.vectors.length :=
    searchTop_length f q k
  have hall : ∀ p ∈ searchTop f q k, ((f.index_to_id.lookup p.1)).isSome :=
    fun p hp => hmap p.1 (searchTop_mem f q k p hp).1
  have hfm := filterMap_isSome_getD (fun p => f.index_to_id.lookup p.1)
    (searchTop f q k) hall (0, 0) 0
  have hc1 : ¬(f.indexIsSome = false ∨ f.vectors.length = 0) := by
    rintro (h | h)
    · rw [hsome] at h; exact absurd h (by decide)
    · omega
  have hbus : buscarChunksSimilares f q k =
      .ok ((searchTop f q k).filterMap (fun p => f.index_to_id.lookup p.1))
        ((searchTop f q k).map (·.2) ++
          List.replicate (k - (searchTop f q k).length) faissPadDist) := by
    unfold buscarChunksSimilares
    rw [if_neg hc1, if_neg (fun hne => hne hq)]
  have hlen : ((searchTop f q k).filterMap
      (fun p => f.index_to_id.lookup p.1)).length = min k f.vectors.length := by
    rw [hfm.1, hlen_top]
  have hsorted : List.Sorted (· ≤ ·)
      (((searchTop f q k).map (·.2) ++
        List.replicate (k - (searchTop f q k).length) faissPadDist).take
        (((searchTop f q k).filterMap (fun p => f.index_to_id.lookup p.1)).length)) := by
    have htake : ((searchTop f q k).map (·.2) ++
        List.replicate (k - (searchTop f q k).length) faissPadDist).take
          (((searchTop f q k).filterMap (fun p => f.index_to_id.lookup p.1)).length) =
        (searchTop f q k).map (·.2) := by
      rw [hfm.1, ← List.length_map (searchTop f q k) (·.2)]
      exact List.take_left _ _
    rw [htake, List.Sorted, List.pairwise_map]
    exact searchTop_sorted f q k
  have hpair : ∀ i, i < ((searchTop f q k).filterMap
      (fun p => f.index_to_id.lookup p.1)).length →
      ∃ j, j < f.vectors.length ∧
        f.index_to_id.lookup j = some (((searchTop f q k).filterMap
          (fun p => f.index_to_id.lookup p.1)).getD i 0) ∧
        ((searchTop f q k).map (·.2) ++
          List.replicate (k - (searchTop f q k).length) faissPadDist).getD i 0 =
          squaredDist q (vecAt f j) := by
    intro i hi
    have hit : i < (searchTop f q k).length := hfm.1 ▸ hi
    have hpm : (searchTop f q k).getD i (0, 0) ∈ searchTop f q k :=
      getD_mem_of_lt _ i hit (0, 0)
    have hsm := searchTop_mem f q k _ hpm
    have hg := hfm.2 i hit
    have hsc : ((searchTop f q k).map (·.2) ++
        List.replicate (k - (searchTop f q k).length) faissPadDist).getD i 0 =
        ((searchTop f q k).getD i (0, 0)).2 := by
      rw [List.getD_append _ _ _ _ (by rw [List.length_map]; exact hit)]
      show ((searchTop f q k).map (·.2)).getD i (((0, 0) : Nat × Int).2) =
        ((searchTop f q k).getD i (0, 0)).2
      exact List.getD_map _ (0, 0) _
    exact ⟨((searchTop f q k).getD i (0, 0)).1, hsm.1, hg, by rw [hsc, hsm.2]⟩
  have hexe : executar f db q k limite =
      executarLoop db ((searchTop f q k).map (·.2) ++
        List.replicate (k - (searchTop f q k).length) faissPadDist) limite 0
        ((searchTop f q k).filterMap (fun p => f.index_to_id.lookup p.1)) := by
    unfold executar
    rw [hbus]
  have hc5 : ∀ r ∈ executar f db q k limite,
      r.score ≤ limite ∧ ∃ j, j < f.vectors.length ∧
        f.index_to_id.lookup j = some r.chunk_uuid ∧
        r.score = squaredDist q (vecAt f j) := by
    intro r hr
    rw [hexe] at hr
    rcases executarLoop_mem _ _ _ _ _ r hr with ⟨t, ht, h1, h2, h3⟩
    rw [Nat.zero_add] at h2
    rcases hpair t ht with ⟨j, hj, hgj, hsj⟩
    exact ⟨h3, j, hj, by rw [← h1] at hgj; exact hgj, by rw [h2, ← hsj]⟩
  have hc6 : List.Sorted (· ≤ ·) ((executar f db q k limite).map (·.score)) := by
    rw [hexe]
    apply executarLoop_sorted
    intro a b _ hab hb
    rw [Nat.zero_add] at hb
    have hbt : b < (searchTop f q k).length := hfm.1 ▸ hb
    have hmono := sorted_getD_mono ((searchTop f q k).map (·.2)) (by
      rw [List.Sorted, List.pairwise_map]; exact searchTop_sorted f q k) a b hab
      (by rw [List.length_map]; exact hbt)
    have hga : ∀ c : Nat, c < (searchTop f q k).length →
        ((searchTop f q k).map (·.2) ++
          List.replicate (k - (searchTop f q k).length) faissPadDist).getD c 0 =
        ((searchTop f q k).map (·.2)).getD c 0 := by
      intro c hc
      exact List.getD_append _ _ _ _ (by rw [List.length_map]; exact hc)
    rw [hga a (lt_of_le_of_lt hab hbt), hga b hbt]
    exact hmono
  exact ⟨_, _, hbus, hlen, hsorted, hpair, hc5, hc6⟩

/-- Witness for C5 at a concrete two-vector index and query `[1]`. -/
theorem claim_C5_busca_ordenada_e_pareada_witness :
    (fC5.indexIsSome = true ∧ 0 < fC5.vectors.length ∧
      ([1] : Vec).length = fC5.index_dimension ∧
      ∀ j, j < fC5.vectors.length → (fC5.index_to_id.lookup j).isSome) ∧
    (∃ ids scores,
      buscarChunksSimilares fC5 [1] 5 = .ok ids scores ∧
      ids.length = min 5 fC5.vectors.length ∧
      List.Sorted (· ≤ ·) (scores.take ids.length) ∧
      (∀ i, i < ids.length → ∃ j, j < fC5.vectors.length ∧
        fC5.index_to_id.lookup j = some (ids.getD i 0) ∧
        scores.getD i 0 = squaredDist [1] (vecAt fC5 j)) ∧
      (∀ r ∈ executar fC5 dbC5 [1] 5 10,
        r.score ≤ 10 ∧ ∃ j, j < fC5.vectors.length ∧
          fC5.index_to_id.lookup j = some r.chunk_uuid ∧
          r.score = squaredDist [1] (vecAt fC5 j)) ∧
      List.Sorted (· ≤ ·) ((executar fC5 dbC5 [1] 5 10).map (·.score))) :=
  ⟨⟨rfl, by decide, rfl, by decide⟩,
    claim_C5_busca_ordenada_e_pareada fC5 dbC5 [1] 5 10 rfl (by decide) rfl (by decide)⟩

/-- C8: re-indexing a path whose stored document (the first one with
the same file name) carries the same content hash is a complete no-op:
the state — documents, chunks, raw records, the vector index and the
fresh-id counter — is unchanged, the reported counts are `(0, 0)` and
no embedding-provider call is made. -/
theorem claim_C8_reindexar_inalterado_noop (env : Env) (file : Arquivo)
    (s : SysState) (d : DocRow)
    (htipo : file.tipo ∈ (["pdf", "docx", "txt"] : List String))
    (hfind : s.db.docs.find? (fun dd => dd.arquivo_nome = file.nome) = some d)
    (hhash : d.arquivo_hash = file.hash) :
    indexarDocumento env file s = (⟨0, 0, 0⟩, s) := by
  unfold indexarDocumento
  rw [if_neg (not_not_intro htipo), hfind]
  dsimp only
  rw [if_pos hhash]

/-- Witness for C8 at a concrete state holding one indexed text file. -/
theorem claim_C8_reindexar_inalterado_noop_witness :
    (("txt" : String) ∈ (["pdf", "docx", "txt"] : List String) ∧
      (SysState.mk ⟨[⟨0, "a.txt", "/p", 5⟩], [], []⟩ ⟨true, true, 2, [], [], []⟩ 1).db.docs.find?
        (fun dd => dd.arquivo_nome = "a.txt") = some ⟨0, "a.txt", "/p", 5⟩ ∧
      (DocRow.mk 0 "a.txt" "/p" 5).arquivo_hash = 5) ∧
    indexarDocumento envOk2 ⟨"a.txt", "/p", "txt", 5, some "x", some ["x"]⟩
      (SysState.mk ⟨[⟨0, "a.txt", "/p", 5⟩], [], []⟩ ⟨true, true, 2, [], [], []⟩ 1) =
      (⟨0, 0, 0⟩,
        SysState.mk ⟨[⟨0, "a.txt", "/p", 5⟩], [], []⟩ ⟨true, true, 2, [], [], []⟩ 1) :=
  ⟨⟨by decide, by decide, rfl⟩,
    claim_C8_reindexar_inalterado_noop envOk2
      ⟨"a.txt", "/p", "txt", 5, some "x", some ["x"]⟩
      (SysState.mk ⟨[⟨0, "a.txt", "/p", 5⟩], [], []⟩ ⟨true, true, 2, [], [], []⟩ 1)
      ⟨0, "a.txt", "/p", 5⟩ (by decide) (by decide) rfl⟩

/-- C7: claimed — a failed extraction leaves no Document row, no
raw-content record and no Chunk rows.  Counterexample: the Document row
is written BEFORE extraction (indexar_documentos_usecase.py line 240
precedes the extraction at lines 252-276), so when the PDF loader
raises, the outer `except` returns `(0, 0)` but the fresh Document row
is already in the store. -/
theorem claim_C7_counterexample_linha_documento_persiste :
    (indexarDocumento envFalha ⟨"a.pdf", "/d/a.pdf", "pdf", 7, none, none⟩
        (SysState.mk ⟨[], [], []⟩ ⟨true, true, 2, [], [], []⟩ 0)).2.db.docs =
      [⟨0, "a.pdf", "/d/a.pdf", 7⟩] ∧
    (indexarDocumento envFalha ⟨"a.pdf", "/d/a.pdf", "pdf", 7, none, none⟩
        (SysState.mk ⟨[], [], []⟩ ⟨true, true, 2, [], [], []⟩ 0)).1 = ⟨0, 0, 0⟩ := by
  constructor
  · rfl
  · rfl

/-- C7 amended: when extraction fails for a new document, the document
is skipped (`(0, 0)` reported, no provider call), no Chunk row and no
raw-content record are written and the vector index is untouched — but
the Document row created before extraction remains in the store (and a
failure at the later chunking step would additionally leave the
raw-content record). -/
theorem claim_C7_amended_extracao_falha (env : Env) (file : Arquivo) (s : SysState)
    (htipo : file.tipo ∈ (["pdf", "docx", "txt"] : List String))
    (hfind : s.db.docs.find? (fun d => d.arquivo_nome = file.nome) = none)
    (hraw : file.raw = none) :
    indexarDocumento env file s =
      (⟨0, 0, 0⟩, { s with
        db := { s.db with
          docs := s.db.docs ++ [⟨s.nextId, file.nome, file.caminho, file.hash⟩] },
        nextId := s.nextId + 1 }) ∧
    (indexarDocumento env file s).2.db.chunks = s.db.chunks ∧
    (indexarDocumento env file s).2.db.raws = s.db.raws ∧
    (indexarDocumento env file s).2.faiss = s.faiss := by
  have h : indexarDocumento env file s =
      (⟨0, 0, 0⟩, { s with
        db := { s.db with
          docs := s.db.docs ++ [⟨s.nextId, file.nome, file.caminho, file.hash⟩] },
        nextId := s.nextId + 1 }) := by
    unfold indexarDocumento
    rw [if_neg (not_not_intro htipo), hfind]
    dsimp only
    unfold indexarDocumentoNovo
    rw [hraw]
  exact ⟨h, by rw [h], by rw [h], by rw [h]⟩

/-- Witness for the amended C7 at a concrete corrupt DOCX file. -/
theorem claim_C7_amended_extracao_falha_witness :
    (("docx" : String) ∈ (["pdf", "docx", "txt"] : List String) ∧
      (SysState.mk ⟨[], [], []⟩ ⟨true, true, 2, [], [], []⟩ 3).db.docs.find?
        (fun d => d.arquivo_nome = "b.docx") = none ∧
      (Arquivo.mk "b.docx" "/d/b.docx" "docx" 9 none none).raw = none) ∧
    indexarDocumento envOk2 ⟨"b.docx", "/d/b.docx", "docx", 9, none, none⟩
        (SysState.mk ⟨[], [], []⟩ ⟨true, true, 2, [], [], []⟩ 3) =
      (⟨0, 0, 0⟩,
        SysState.mk ⟨[⟨3, "b.docx", "/d/b.docx", 9⟩], [], []⟩
          ⟨true, true, 2, [], [], []⟩ 4) :=
  ⟨⟨by decide, rfl, rfl⟩,
    (claim_C7_amended_extracao_falha envOk2 ⟨"b.docx", "/d/b.docx", "docx", 9, none, none⟩
      (SysState.mk ⟨[], [], []⟩ ⟨true, true, 2, [], [], []⟩ 3)
      (by decide) rfl rfl).1⟩

theorem processarChunks_spec (env : Env) (auuid : Nat) :
    ∀ (textos : List String) (i : Nat) (s : SysState) (q0 : List (Nat × Vec)),
      (processarChunks env auuid textos i s q0).2 =
        q0 ++ queueSpec env s.nextId textos ∧
      (processarChunks env auuid textos i s q0).1.faiss = s.faiss := by
  intro textos
  induction textos with
  | nil => intro i s q0; exact ⟨by simp [processarChunks, queueSpec], rfl⟩
  | cons texto rest ih =>
    intro i s q0
    unfold processarChunks queueSpec
    cases he : env.embed texto with
    | none =>
      dsimp only
      constructor
      · rw [(ih (i + 1) _ q0).1]
      · rw [(ih (i + 1) _ q0).2]
    | some v =>
      dsimp only
      by_cases hup : env.updateFails s.nextId = true
      · rw [if_pos hup]
        constructor
        · rw [(ih (i + 1) _ _).1]
          simp
        · rw [(ih (i + 1) _ _).2]
      · rw [if_neg hup]
        constructor
        · rw [(ih (i + 1) _ _).1]
          simp
        · rw [(ih (i + 1) _ _).2]

/-- C6: claimed — only chunks whose Embedding was successfully stored
in the MetadataStore are queued for VectorIndex insertion.
Counterexample: `indexar_documento` ignores the boolean returned by
`atualizar_embedding` (indexar_documentos_usecase.py line 358), so when
the UPDATE fails with a rollback (`atualizar_chunk_db` returns `False`,
sqlite_management.py lines 427-435) the chunk is still queued: after the
run, chunk 1's vector sits in the FAISS index while its stored row has a
NULL embedding. -/
theorem claim_C6_counterexample_fila_apesar_de_update_falhar :
    (indexarDocumento envUpdateFalha ⟨"a.txt", "/a", "txt", 1, some "x", some ["x"]⟩
        (SysState.mk ⟨[], [], []⟩ ⟨true, true, 2, [], [], []⟩ 0)).2.faiss.vectors =
      [[1, 2]] ∧
    (indexarDocumento envUpdateFalha ⟨"a.txt", "/a", "txt", 1, some "x", some ["x"]⟩
        (SysState.mk ⟨[], [], []⟩ ⟨true, true, 2, [], [], []⟩ 0)).2.faiss.id_to_index =
      [(1, 0)] ∧
    (indexarDocumento envUpdateFalha ⟨"a.txt", "/a", "txt", 1, some "x", some ["x"]⟩
        (SysState.mk ⟨[], [], []⟩ ⟨true, true, 2, [], [], []⟩ 0)).2.db.chunks =
      [⟨1, 0, 0, none⟩] := by
  exact ⟨rfl, rfl, rfl⟩

/-- C6 amended: a chunk is queued for VectorIndex insertion whenever its
provider call succeeds and the store update does not raise — even when
the update reports failure by returning `False` — and a document's
queued embeddings reach the index through exactly one batch-add call
performed after the whole chunk loop: the chunk loop itself never
touches the index, and the final index state is the result of that one
call on the pre-document index state with the queue
`queueSpec env (s.nextId + 1) textos`, which depends only on the
provider's successes. -/
theorem claim_C6_amended_lote_unico_apos_chunks (env : Env) (file : Arquivo)
    (s : SysState) (textos : List String)
    (htipo : file.tipo ∈ (["pdf", "docx", "txt"] : List String))
    (hfind : s.db.docs.find? (fun d => d.arquivo_nome = file.nome) = none)
    (hraw : file.raw.isSome)
    (hchunks : file.chunks = some textos) :
    (queueSpec env (s.nextId + 1) textos = [] →
      (indexarDocumento env file s).2.faiss = s.faiss) ∧
    (queueSpec env (s.nextId + 1) textos ≠ [] →
      (indexarDocumento env file s).2.faiss =
        (adicionarEmbeddings s.faiss (queueSpec env (s.nextId + 1) textos)).2) := by
  rcases Option.isSome_iff_exists.mp hraw with ⟨rawtext, hraweq⟩
  have hred : indexarDocumento env file s = indexarDocumentoNovo env file s := by
    unfold indexarDocumento
    rw [if_neg (not_not_intro htipo), hfind]
  rw [hred]
  unfold indexarDocumentoNovo
  rw [hraweq, hchunks]
  dsimp only
  have hspec := processarChunks_spec env s.nextId textos 0
    { s with
      db := { s.db with
        docs := s.db.docs ++ [⟨s.nextId, file.nome, file.caminho, file.hash⟩],
        raws := s.db.raws ++ [s.nextId] },
      nextId := s.nextId + 1 } []
  constructor
  · intro hq
    rw [if_pos (by rw [hspec.1]; simpa using hq)]
    rw [hspec.2]
  · intro hq
    rw [if_neg (by rw [hspec.1]; simpa using hq)]
    have hq2 : (processarChunks env s.nextId textos 0
        { s with
          db := { s.db with
            docs := s.db.docs ++ [⟨s.nextId, file.nome, file.caminho, file.hash⟩],
            raws := s.db.raws ++ [s.nextId] },
          nextId := s.nextId + 1 } []).2 =
        queueSpec env (s.nextId + 1) textos := by
      rw [hspec.1]; simp
    rw [hq2, hspec.2]
    rcases hadd : adicionarEmbeddings s.faiss (queueSpec env (s.nextId + 1) textos)
      with ⟨o, f2⟩
    cases o <;> simp

/-- Witness for the amended C6: one successfully embedded chunk reaches
the index as the single batch `[(1, [1, 2])]`. -/
theorem claim_C6_amended_lote_unico_apos_chunks_witness :
    (("txt" : String) ∈ (["pdf", "docx", "txt"] : List String) ∧
      (SysState.mk ⟨[], [], []⟩ ⟨true, true, 2, [], [], []⟩ 0).db.docs.find?
        (fun d => d.arquivo_nome = "a.txt") = none ∧
      (Arquivo.mk "a.txt" "/a" "txt" 1 (some "x") (some ["x"])).raw.isSome ∧
      (Arquivo.mk "a.txt" "/a" "txt" 1 (some "x") (some ["x"])).chunks = some ["x"] ∧
      queueSpec envOk2 1 ["x"] ≠ []) ∧
    (indexarDocumento envOk2 ⟨"a.txt", "/a", "txt", 1, some "x", some ["x"]⟩
        (SysState.mk ⟨[], [], []⟩ ⟨true, true, 2, [], [], []⟩ 0)).2.faiss =
      (adicionarEmbeddings ⟨true, true, 2, [], [], []⟩ (queueSpec envOk2 1 ["x"])).2 :=
  ⟨⟨by decide, rfl, rfl, rfl, by decide⟩,
    (claim_C6_amended_lote_unico_apos_chunks envOk2
      ⟨"a.txt", "/a", "txt", 1, some "x", some ["x"]⟩
      (SysState.mk ⟨[], [], []⟩ ⟨true, true, 2, [], [], []⟩ 0) ["x"]
      (by decide) rfl rfl rfl).2 (by decide)⟩

theorem lookup_mem {β : Type} :
    ∀ (l : List (Nat × β)) (a : Nat) (b : β), l.lookup a = some b → (a, b) ∈ l := by
  intro l
  induction l with
  | nil => intro a b h; simp [List.lookup] at h
  | cons p t ih =>
    intro a b h
    obtain ⟨k, v⟩ := p
    rw [List.lookup] at h
    by_cases hk : (a == k) = true
    · rw [hk] at h
      dsimp only at h
      injection h with h
      have hak : a = k := by simpa using hk
      subst hak
      subst h
      exact List.mem_cons_self _ _
    · rw [Bool.eq_false_iff.mpr hk] at h
      dsimp only at h
      exact List.mem_cons_of_mem _ (ih a b h)

theorem rebuild_index_to_id (db : Db) (f : FaissState) (j u : Nat)
    (h : (j, u) ∈ (reiniciarIndiceComDocumentosExistentes db f).2.index_to_id) :
    ∃ c ∈ db.chunks, c.chunk_uuid = u ∧ ∃ v : Vec,
      c.chunk_embedding = some (some v) ∧ v.length = f.index_dimension := by
  have hD := rebuild_filterMap_eq db f.index_dimension
  unfold reiniciarIndiceComDocumentosExistentes at h
  dsimp only at h
  have hmem : ∃ v : Vec, (u, v) ∈ db.chunks.filterMap (decodeRow f.index_dimension) := by
    split at h
    · simp [reiniciarIndice] at h
    · split at h
      · simp [reiniciarIndice] at h
      · dsimp only at h
        rcases List.mem_map.mp h with ⟨p, hp, hpe⟩
        obtain ⟨i0, u0, v0⟩ := p
        have hsnd := snd_mem_of_mem_enum hp
        rw [hD] at hsnd
        simp only at hpe hsnd
        have hu : u0 = u := by
          have := congrArg Prod.snd hpe
          simpa using this
        exact ⟨v0, hu ▸ hsnd⟩
  rcases hmem with ⟨v, hv⟩
  rcases List.mem_filterMap.mp hv with ⟨c, hc, hdec⟩
  rcases (decodeRow_eq_some _ _ _ _).mp hdec with ⟨h1, h2, h3⟩
  exact ⟨c, hc, h1, v, h2, h3⟩

theorem buscar_ids_mem (f : FaissState) (q : Vec) (k : Nat) (ids : List Nat)
    (scores : List Int) (h : buscarChunksSimilares f q k = .ok ids scores) :
    ∀ u ∈ ids, ∃ j, (j, u) ∈ f.index_to_id := by
  unfold buscarChunksSimilares at h
  split at h
  · injection h with h1 h2
    subst h1
    intro u hu
    simp at hu
  · split at h
    · exact absurd h (by simp)
    · injection h with h1 h2
      subst h1
      intro u hu
      rcases List.mem_filterMap.mp hu with ⟨p, _, hlook⟩
      exact ⟨p.1, lookup_mem _ _ _ hlook⟩

theorem verificarSincronizacaoFaiss_db (s : SysState) :
    (verificarSincronizacaoFaiss s).2.db = s.db := by
  unfold verificarSincronizacaoFaiss
  split <;> rfl

theorem verificarSincronizacaoFaiss_nextId (s : SysState) :
    (verificarSincronizacaoFaiss s).2.nextId = s.nextId := by
  unfold verificarSincronizacaoFaiss
  split <;> rfl

theorem deletadosLoop_chunks_subset (onDisk : String → Bool) :
    ∀ (docsList : List DocRow) (s : SysState) (n : Nat),
      ∀ c ∈ (verificarArquivosDeletadosLoop onDisk docsList s n).2.db.chunks,
        c ∈ s.db.chunks := by
  intro docsList
  induction docsList with
  | nil => intro s n c hc; exact hc
  | cons d0 rest ih =>
    intro s n c hc
    unfold verificarArquivosDeletadosLoop at hc
    by_cases hdisk : onDisk d0.arquivo_caminho = true
    · rw [if_pos hdisk] at hc
      exact ih s n c hc
    · rw [if_neg hdisk] at hc
      have := ih _ _ c hc
      exact List.mem_of_mem_filter this

theorem deletadosLoop_removes (onDisk : String → Bool) :
    ∀ (docsList : List DocRow) (s : SysState) (n : Nat) (d : DocRow),
      d ∈ docsList → onDisk d.arquivo_caminho = false →
      ∀ c ∈ (verificarArquivosDeletadosLoop onDisk docsList s n).2.db.chunks,
        c.arquivo_uuid ≠ d.arquivo_uuid := by
  intro docsList
  induction docsList with
  | nil => intro s n d hd; simp at hd
  | cons d0 rest ih =>
    intro s n d hd hgone c hc
    unfold verificarArquivosDeletadosLoop at hc
    rcases List.mem_cons.mp hd with hd0 | hdr
    · subst hd0
      rw [if_neg (by rw [hgone]; simp)] at hc
      have hsub := deletadosLoop_chunks_subset onDisk rest _ _ c hc
      have : c ∈ (apagarDocumento d.arquivo_uuid s.db).chunks := hsub
      unfold apagarDocumento at this
      have := List.mem_filter.mp this
      simpa using this.2
    · by_cases hdisk : onDisk d0.arquivo_caminho = true
      · rw [if_pos hdisk] at hc
        exact ih s n d hdr hgone c hc
      · rw [if_neg hdisk] at hc
        exact ih _ _ d hdr hgone c hc

theorem deletadosLoop_faiss (onDisk : String → Bool) :
    ∀ (docsList : List DocRow) (s : SysState) (n : Nat),
      (verificarArquivosDeletadosLoop onDisk docsList s n).2.faiss = s.faiss := by
  intro docsList
  induction docsList with
  | nil => intro s n; rfl
  | cons d0 rest ih =>
    intro s n
    unfold verificarArquivosDeletadosLoop
    by_cases hdisk : onDisk d0.arquivo_caminho = true
    · rw [if_pos hdisk]; exact ih s n
    · rw [if_neg hdisk]; exact ih _ _

/-- C9: claimed — after removing a source file and running the reload
cycle, a full index rebuild has occurred.  Counterexample: a stored
document whose only chunk carries no embedding is removed; the cycle
deletes the rows, but the final synchronization check then finds the
vector count (0) equal to the embedded-chunk count (0) and takes the
in-sync branch: no rebuild runs. -/
theorem claim_C9_counterexample_sem_rebuild :
    ((⟨0, "a.txt", "/gone", 1⟩ : DocRow) ∈
      (SysState.mk ⟨[⟨0, "a.txt", "/gone", 1⟩], [⟨1, 0, 0, none⟩], [0]⟩
        ⟨true, true, 2, [], [], []⟩ 2).db.docs) ∧
    ((⟨1, 0, 0, none⟩ : ChunkRow) ∈
      (SysState.mk ⟨[⟨0, "a.txt", "/gone", 1⟩], [⟨1, 0, 0, none⟩], [0]⟩
        ⟨true, true, 2, [], [], []⟩ 2).db.chunks) ∧
    (recarregarArquivosDaPasta (fun _ => false)
      (SysState.mk ⟨[⟨0, "a.txt", "/gone", 1⟩], [⟨1, 0, 0, none⟩], [0]⟩
        ⟨true, true, 2, [], [], []⟩ 2)).1 = false := by
  exact ⟨by decide, by decide, rfl⟩

/-- C9 amended: after a source file disappears from disk and the reload
cycle runs, (i) every chunk row of that document is gone from the
store; (ii) the cycle ends with a full rebuild exactly when the final
synchronization check finds the vector count differing from the
embedded-chunk count, and whenever that rebuild runs, none of the
document's former chunk keys (keys not shared with a surviving
document's chunk) can be returned by `buscar_chunks_similares` for any
query; (iii) when the counts already match — e.g. the removed document
had no embedded chunks — no rebuild happens and the index is left as
loaded. -/
theorem claim_C9_amended_remocao_e_rebuild (onDisk : String → Bool) (s : SysState)
    (d : DocRow) (hd : d ∈ s.db.docs) (hgone : onDisk d.arquivo_caminho = false) :
    (∀ c ∈ (recarregarArquivosDaPasta onDisk s).2.db.chunks,
      c.arquivo_uuid ≠ d.arquivo_uuid) ∧
    ((recarregarArquivosDaPasta onDisk s).1 = true →
      ∀ c0 ∈ s.db.chunks, c0.arquivo_uuid = d.arquivo_uuid →
        (∀ c1 ∈ s.db.chunks, c1.chunk_uuid = c0.chunk_uuid →
          c1.arquivo_uuid = d.arquivo_uuid) →
        ∀ (q : Vec) (k : Nat) (ids : List Nat) (scores : List Int),
          buscarChunksSimilares (recarregarArquivosDaPasta onDisk s).2.faiss q k =
            .ok ids scores →
          c0.chunk_uuid ∉ ids) ∧
    ((recarregarArquivosDaPasta onDisk s).1 = false →
      (recarregarArquivosDaPasta onDisk s).2.faiss =
        inicializarIndice (verificarArquivosDeletados onDisk s).2.faiss) := by
  have hdel : ∀ c ∈ (verificarArquivosDeletados onDisk s).2.db.chunks,
      c.arquivo_uuid ≠ d.arquivo_uuid :=
    deletadosLoop_removes onDisk s.db.docs s 0 d hd hgone
  have hsub : ∀ c ∈ (verificarArquivosDeletados onDisk s).2.db.chunks,
      c ∈ s.db.chunks :=
    deletadosLoop_chunks_subset onDisk s.db.docs s 0
  have hsnd : (recarregarArquivosDaPasta onDisk s).2 =
      (verificarSincronizacaoFaiss
        { (verificarArquivosDeletados onDisk s).2 with
          faiss := inicializarIndice (verificarArquivosDeletados onDisk s).2.faiss }).2 :=
    rfl
  have hfst : (recarregarArquivosDaPasta onDisk s).1 =
      decide ((obterEstatisticas (inicializarIndice
          (verificarArquivosDeletados onDisk s).2.faiss)).vetores ≠
        contarChunksComEmbedding (verificarArquivosDeletados onDisk s).2.db) :=
    rfl
  have hdbres : (recarregarArquivosDaPasta onDisk s).2.db =
      (verificarArquivosDeletados onDisk s).2.db := by
    rw [hsnd, verificarSincronizacaoFaiss_db]
  refine ⟨?_, ?_, ?_⟩
  · intro c hc
    rw [hdbres] at hc
    exact hdel c hc
  · intro hflag c0 hc0 hc0d huniq q k ids scores hbus habs
    have hcond : (obterEstatisticas (inicializarIndice
        (verificarArquivosDeletados onDisk s).2.faiss)).vetores ≠
        contarChunksComEmbedding (verificarArquivosDeletados onDisk s).2.db :=
      of_decide_eq_true (hfst ▸ hflag)
    have hfa : (recarregarArquivosDaPasta onDisk s).2.faiss =
        (reiniciarIndiceComDocumentosExistentes
          (verificarArquivosDeletados onDisk s).2.db
          (inicializarIndice (verificarArquivosDeletados onDisk s).2.faiss)).2 := by
      rw [hsnd]
      unfold verificarSincronizacaoFaiss
      rw [if_pos hcond]
    rcases buscar_ids_mem _ q k ids scores hbus c0.chunk_uuid habs with ⟨j, hj⟩
    rw [hfa] at hj
    rcases rebuild_index_to_id _ _ j c0.chunk_uuid hj with ⟨c, hc, hcu, _⟩
    have hcmem : c ∈ s.db.chunks := hsub c hc
    have harq : c.arquivo_uuid = d.arquivo_uuid := huniq c hcmem hcu
    exact hdel c hc harq
  · intro hflag
    have hcond : ¬((obterEstatisticas (inicializarIndice
        (verificarArquivosDeletados onDisk s).2.faiss)).vetores ≠
        contarChunksComEmbedding (verificarArquivosDeletados onDisk s).2.db) :=
      of_decide_eq_false (hfst ▸ hflag)
    rw [hsnd]
    unfold verificarSincronizacaoFaiss
    rw [if_neg hcond]

/-- Witness for the amended C9: removing the only document (one chunk,
embedded in the index) triggers the rebuild and its former chunk key 1
is never returned again. -/
theorem claim_C9_amended_remocao_e_rebuild_witness :
    ((⟨0, "a.txt", "/gone", 1⟩ : DocRow) ∈
      (SysState.mk ⟨[⟨0, "a.txt", "/gone", 1⟩], [⟨1, 0, 0, some (some [1, 2])⟩], [0]⟩
        ⟨true, true, 2, [[1, 2]], [(1, 0)], [(0, 1)]⟩ 2).db.docs ∧
      (fun _ : String => false) "/gone" = false) ∧
    (∀ c ∈ (recarregarArquivosDaPasta (fun _ => false)
      (SysState.mk ⟨[⟨0, "a.txt", "/gone", 1⟩], [⟨1, 0, 0, some (some [1, 2])⟩], [0]⟩
        ⟨true, true, 2, [[1, 2]], [(1, 0)], [(0, 1)]⟩ 2)).2.db.chunks,
      c.arquivo_uuid ≠ (DocRow.mk 0 "a.txt" "/gone" 1).arquivo_uuid) ∧
    (recarregarArquivosDaPasta (fun _ => false)
      (SysState.mk ⟨[⟨0, "a.txt", "/gone", 1⟩], [⟨1, 0, 0, some (some [1, 2])⟩], [0]⟩
        ⟨true, true, 2, [[1, 2]], [(1, 0)], [(0, 1)]⟩ 2)).1 = true ∧
    (∀ (q : Vec) (k : Nat) (ids : List Nat) (scores : List Int),
      buscarChunksSimilares (recarregarArquivosDaPasta (fun _ => false)
        (SysState.mk ⟨[⟨0, "a.txt", "/gone", 1⟩], [⟨1, 0, 0, some (some [1, 2])⟩], [0]⟩
          ⟨true, true, 2, [[1, 2]], [(1, 0)], [(0, 1)]⟩ 2)).2.faiss q k =
        .ok ids scores →
      (1 : Nat) ∉ ids) := by
  have main := claim_C9_amended_remocao_e_rebuild (fun _ => false)
    (SysState.mk ⟨[⟨0, "a.txt", "/gone", 1⟩], [⟨1, 0, 0, some (some [1, 2])⟩], [0]⟩
      ⟨true, true, 2, [[1, 2]], [(1, 0)], [(0, 1)]⟩ 2)
    ⟨0, "a.txt", "/gone", 1⟩ (by decide) rfl
  refine ⟨⟨by decide, rfl⟩, main.1, rfl, ?_⟩
  intro q k ids scores hbus
  exact main.2.1 rfl ⟨1, 0, 0, some (some [1, 2])⟩ (by decide) rfl
    (by intro c1 hc1 hcu; rcases List.mem_singleton.mp hc1 with h; rw [h]) q k ids scores hbus

/-- C1: claimed — for all reachable states, after any complete
`indexar_pasta` run the vector count equals the embedded-chunk count.
Counterexample: the synchronization check runs at the START of
`indexar_pasta` (line 123), not after it.  Re-indexing a modified file
deletes the old document's chunks from the store but not its vector
from FAISS, then adds the new chunk to both; from an in-sync state
(1 = 1) the run completes with vector_count 2 against embedded-chunk
count 1. -/
theorem claim_C1_counterexample_arquivo_modificado_gera_drift :
    ((obterEstatisticas (SysState.mk
        ⟨[⟨0, "a.txt", "/p", 1⟩], [⟨1, 0, 0, some (some [1, 2])⟩], [0]⟩
        ⟨true, true, 2, [[1, 2]], [(1, 0)], [(0, 1)]⟩ 2).faiss).vetores =
      contarChunksComEmbedding (SysState.mk
        ⟨[⟨0, "a.txt", "/p", 1⟩], [⟨1, 0, 0, some (some [1, 2])⟩], [0]⟩
        ⟨true, true, 2, [[1, 2]], [(1, 0)], [(0, 1)]⟩ 2).db) ∧
    (obterEstatisticas (indexarPasta envOk2
        [⟨"a.txt", "/p", "txt", 2, some "y", some ["y"]⟩]
        (SysState.mk ⟨[⟨0, "a.txt", "/p", 1⟩], [⟨1, 0, 0, some (some [1, 2])⟩], [0]⟩
          ⟨true, true, 2, [[1, 2]], [(1, 0)], [(0, 1)]⟩ 2)).2.faiss).vetores = 2 ∧
    contarChunksComEmbedding (indexarPasta envOk2
        [⟨"a.txt", "/p", "txt", 2, some "y", some ["y"]⟩]
        (SysState.mk ⟨[⟨0, "a.txt", "/p", 1⟩], [⟨1, 0, 0, some (some [1, 2])⟩], [0]⟩
          ⟨true, true, 2, [[1, 2]], [(1, 0)], [(0, 1)]⟩ 2)).2.db = 1 := by
  exact ⟨rfl, rfl, rfl⟩

theorem queueSpec_ids (env : Env) :
    ∀ (textos : List String) (n : Nat), ∀ p ∈ queueSpec env n textos,
      n ≤ (p : Nat × Vec).1 ∧ (p : Nat × Vec).1 < n + textos.length := by
  intro textos
  induction textos with
  | nil => intro n p hp; simp [queueSpec] at hp
  | cons texto rest ih =>
    intro n p hp
    unfold queueSpec at hp
    cases he : env.embed texto with
    | none =>
      rw [he] at hp
      dsimp only at hp
      have := ih (n + 1) p hp
      exact ⟨by omega, by simp; omega⟩
    | some v =>
      rw [he] at hp
      dsimp only at hp
      rcases List.mem_cons.mp hp with h0 | ht
      · subst h0
        exact ⟨le_refl n, by simp⟩
      · have := ih (n + 1) p ht
        exact ⟨by omega, by simp; omega⟩

theorem queueSpec_dim (env : Env) (D : Nat)
    (henv1 : ∀ t v, env.embed t = some v → v.length = D) :
    ∀ (textos : List String) (n : Nat), ∀ p ∈ queueSpec env n textos,
      (p : Nat × Vec).2.length = D := by
  intro textos
  induction textos with
  | nil => intro n p hp; simp [queueSpec] at hp
  | cons texto rest ih =>
    intro n p hp
    unfold queueSpec at hp
    cases he : env.embed texto with
    | none =>
      rw [he] at hp
      dsimp only at hp
      exact ih (n + 1) p hp
    | some v =>
      rw [he] at hp
      dsimp only at hp
      rcases List.mem_cons.mp hp with h0 | ht
      · subst h0
        exact henv1 texto v he
      · exact ih (n + 1) p ht

theorem lookup_none_of_keys_ne {β : Type} :
    ∀ (l : List (Nat × β)) (a : Nat), (∀ p ∈ l, (p : Nat × β).1 ≠ a) →
      l.lookup a = none := by
  intro l
  induction l with
  | nil => intro a _; rfl
  | cons p t ih =>
    intro a h
    obtain ⟨k, v⟩ := p
    rw [List.lookup]
    have hk : (a == k) = false := by
      have := h (k, v) (List.mem_cons_self _ _)
      simp only [ne_eq] at this
      simp [this]
      omega
    rw [hk]
    exact ih a (fun q hq => h q (List.mem_cons_of_mem _ hq))

theorem atualizarEmbeddingDb_no_match (cuuid : Nat) (v : Vec) :
    ∀ (chunks : List ChunkRow), (∀ c ∈ chunks, c.chunk_uuid ≠ cuuid) →
      atualizarEmbeddingDb cuuid v chunks = chunks := by
  intro chunks
  induction chunks with
  | nil => intro _; rfl
  | cons c t ih =>
    intro h
    unfold atualizarEmbeddingDb
    rw [List.map_cons]
    rw [if_neg (h c (List.mem_cons_self _ _))]
    have := ih (fun c1 hc1 => h c1 (List.mem_cons_of_mem _ hc1))
    unfold atualizarEmbeddingDb at this
    rw [this]

theorem processarChunks_contar (env : Env) (auuid : Nat)
    (henv2 : ∀ u, env.updateFails u = false) :
    ∀ (textos : List String) (i : Nat) (s : SysState) (q0 : List (Nat × Vec)),
      (∀ c ∈ s.db.chunks, c.chunk_uuid < s.nextId) →
      (processarChunks env auuid textos i s q0).1.nextId = s.nextId + textos.length ∧
      contarChunksComEmbedding (processarChunks env auuid textos i s q0).1.db =
        contarChunksComEmbedding s.db + (queueSpec env s.nextId textos).length ∧
      (∀ c ∈ (processarChunks env auuid textos i s q0).1.db.chunks,
        c.chunk_uuid < (processarChunks env auuid textos i s q0).1.nextId) := by
  intro textos
  induction textos with
  | nil =>
    intro i s q0 hb
    exact ⟨rfl, by simp [processarChunks, queueSpec], fun c hc => hb c hc⟩
  | cons texto rest ih =>
    intro i s q0 hb
    unfold processarChunks queueSpec
    cases he : env.embed texto with
    | none =>
      dsimp only
      have hb1 : ∀ c ∈ (s.db.chunks ++
          [(⟨s.nextId, auuid, i, none⟩ : ChunkRow)]), c.chunk_uuid < s.nextId + 1 := by
        intro c hc
        rcases List.mem_append.mp hc with h1 | h2
        · exact Nat.lt_succ_of_lt (hb c h1)
        · rw [List.mem_singleton.mp h2]
          exact Nat.lt_succ_self _
      have hr := ih (i + 1)
        { s with
          db := { s.db with chunks := s.db.chunks ++ [⟨s.nextId, auuid, i, none⟩] },
          nextId := s.nextId + 1 } q0 hb1
      refine ⟨?_, ?_, hr.2.2⟩
      · rw [hr.1]
        simp
        omega
      · rw [hr.2.1]
        have hcount : contarChunksComEmbedding
            { s.db with chunks := s.db.chunks ++ [⟨s.nextId, auuid, i, none⟩] } =
            contarChunksComEmbedding s.db := by
          unfold contarChunksComEmbedding
          rw [List.filter_append]
          simp
        rw [hcount]
    | some v =>
      dsimp only
      rw [if_neg (by simp [henv2 s.nextId])]
      have hfreshold : ∀ c ∈ s.db.chunks, c.chunk_uuid ≠ s.nextId :=
        fun c hc => Nat.ne_of_lt (hb c hc)
      have hupd : atualizarEmbeddingDb s.nextId v
          (s.db.chunks ++ [⟨s.nextId, auuid, i, none⟩]) =
          s.db.chunks ++ [⟨s.nextId, auuid, i, some (some v)⟩] := by
        unfold atualizarEmbeddingDb
        rw [List.map_append]
        congr 1
        · have hnm := atualizarEmbeddingDb_no_match s.nextId v s.db.chunks hfreshold
          unfold atualizarEmbeddingDb at hnm
          exact hnm
        · rw [List.map_cons, List.map_nil, if_pos rfl]
      rw [hupd]
      have hb2 : ∀ c ∈ (s.db.chunks ++
          [(⟨s.nextId, auuid, i, some (some v)⟩ : ChunkRow)]),
          c.chunk_uuid < s.nextId + 1 := by
        intro c hc
        rcases List.mem_append.mp hc with h1 | h2
        · exact Nat.lt_succ_of_lt (hb c h1)
        · rw [List.mem_singleton.mp h2]
          exact Nat.lt_succ_self _
      have hr := ih (i + 1)
        { s with
          db := { s.db with
            chunks := s.db.chunks ++ [⟨s.nextId, auuid, i, some (some v)⟩] },
          nextId := s.nextId + 1 } (q0 ++ [(s.nextId, v)]) hb2
      refine ⟨?_, ?_, hr.2.2⟩
      · rw [hr.1]
        simp
        omega
      · rw [hr.2.1]
        have hcount : contarChunksComEmbedding
            { s.db with
              chunks := s.db.chunks ++ [⟨s.nextId, auuid, i, some (some v)⟩] } =
            contarChunksComEmbedding s.db + 1 := by
          unfold contarChunksComEmbedding
          rw [List.filter_append]
          simp
        rw [hcount]
        simp
        omega

theorem adicionar_fresco (f : FaissState) (Q : List (Nat × Vec)) (D : Nat)
    (hinit : f.initFlag = true) (hdim : f.index_dimension = D)
    (hQdim : ∀ p ∈ Q, (p : Nat × Vec).2.length = D)
    (hfresh : ∀ p ∈ Q, f.id_to_index.lookup (p : Nat × Vec).1 = none)
    (hne : Q ≠ []) :
    (adicionarEmbeddings f Q).2.vectors = f.vectors ++ Q.map (·.2) ∧
    (adicionarEmbeddings f Q).2.index_dimension = f.index_dimension ∧
    (adicionarEmbeddings f Q).2.initFlag = true ∧
    (adicionarEmbeddings f Q).2.indexIsSome = f.indexIsSome ∧
    (∀ p ∈ (adicionarEmbeddings f Q).2.id_to_index,
      p ∈ f.id_to_index ∨ ∃ q ∈ Q, (p : Nat × Nat).1 = (q : Nat × Vec).1) := by
  cases Q with
  | nil => exact absurd rfl hne
  | cons q0 rest =>
    obtain ⟨u0, v0⟩ := q0
    have hens : ∀ d, ensureInitialized f d = f := by
      intro d; unfold ensureInitialized; rw [hinit]; simp
    have hv0 : v0.length = f.index_dimension := by
      rw [hdim]; exact hQdim (u0, v0) (List.mem_cons_self _ _)
    simp only [adicionarEmbeddings, hens]
    rw [if_neg (fun hne2 => hne2 hv0)]
    have hfilter : ((u0, v0) :: rest).filter
        (fun p => (f.id_to_index.lookup p.1).isNone) = (u0, v0) :: rest := by
      rw [List.filter_eq_self]
      intro p hp
      simp [hfresh p hp]
    rw [hfilter]
    dsimp only
    have hany : (((u0, v0) :: rest).any
        (fun r => decide (r.2.length ≠ v0.length))) = false := by
      rw [List.any_eq_false]
      intro r hr
      simp [hQdim r hr, hQdim (u0, v0) (List.mem_cons_self _ _)]
    rw [if_neg (fun hcc => by rw [hany] at hcc; simp at hcc)]
    rw [if_neg (fun hne2 => hne2 hv0)]
    refine ⟨rfl, rfl, hinit, rfl, ?_⟩
    intro p hp
    rcases List.mem_append.mp hp with h1 | h2
    · exact Or.inl h1
    · rcases List.mem_map.mp h2 with ⟨pe, hpe, hmape⟩
      refine Or.inr ⟨pe.2, snd_mem_of_mem_enum hpe, ?_⟩
      rw [← hmape]

theorem processarChunks_docs (env : Env) (auuid : Nat) :
    ∀ (textos : List String) (i : Nat) (s : SysState) (q0 : List (Nat × Vec)),
      (processarChunks env auuid textos i s q0).1.db.docs = s.db.docs ∧
      (processarChunks env auuid textos i s q0).1.db.raws = s.db.raws := by
  intro textos
  induction textos with
  | nil => intro i s q0; exact ⟨rfl, rfl⟩
  | cons texto rest ih =>
    intro i s q0
    unfold processarChunks
    cases he : env.embed texto with
    | none =>
      dsimp only
      exact ih (i + 1) _ q0
    | some v =>
      dsimp only
      by_cases hup : env.updateFails s.nextId = true
      · rw [if_pos hup]
        exact ih (i + 1) _ _
      · rw [if_neg hup]
        exact ih (i + 1) _ _

theorem indexarDocumento_preserva (env : Env) (D : Nat)
    (henv1 : ∀ t v, env.embed t = some v → v.length = D)
    (henv2 : ∀ u, env.updateFails u = false)
    (file : Arquivo) (s : SysState)
    (hbom : estadoBom s D)
    (hfres : ∀ d ∈ s.db.docs, d.arquivo_nome ≠ file.nome) :
    estadoBom (indexarDocumento env file s).2 D ∧
    (∀ d ∈ (indexarDocumento env file s).2.db.docs,
      d.arquivo_nome = file.nome ∨ d ∈ s.db.docs) := by
  obtain ⟨hsome, hinit, hdim, hsync, hmapb, hchb⟩ := hbom
  by_cases htipo : file.tipo ∈ (["pdf", "docx", "txt"] : List String)
  case neg =>
    unfold indexarDocumento
    rw [if_pos htipo]
    exact ⟨⟨hsome, hinit, hdim, hsync, hmapb, hchb⟩, fun d hd => Or.inr hd⟩
  case pos =>
    have hfind : s.db.docs.find? (fun d => d.arquivo_nome = file.nome) = none := by
      rw [List.find?_eq_none]
      intro d hd
      simp [hfres d hd]
    unfold indexarDocumento
    rw [if_neg (not_not_intro htipo), hfind]
    dsimp only
    unfold indexarDocumentoNovo
    cases hraw : file.raw with
    | none =>
      dsimp only
      constructor
      · exact ⟨hsome, hinit, hdim, hsync,
          fun p hp => Nat.lt_succ_of_lt (hmapb p hp),
          fun c hc => Nat.lt_succ_of_lt (hchb c hc)⟩
      · intro d hd
        rcases List.mem_append.mp hd with h1 | h2
        · exact Or.inr h1
        · rw [List.mem_singleton.mp h2]; exact Or.inl rfl
    | some rawtext =>
      dsimp only
      cases hchunks : file.chunks with
      | none =>
        dsimp only
        constructor
        · exact ⟨hsome, hinit, hdim, hsync,
            fun p hp => Nat.lt_succ_of_lt (hmapb p hp),
            fun c hc => Nat.lt_succ_of_lt (hchb c hc)⟩
        · intro d hd
          rcases List.mem_append.mp hd with h1 | h2
          · exact Or.inr h1
          · rw [List.mem_singleton.mp h2]; exact Or.inl rfl
      | some textos =>
        dsimp only
        have hb2 : ∀ c ∈ ({ s with
            db := { s.db with
              docs := s.db.docs ++ [⟨s.nextId, file.nome, file.caminho, file.hash⟩],
              raws := s.db.raws ++ [s.nextId] },
            nextId := s.nextId + 1 } : SysState).db.chunks,
            c.chunk_uuid < ({ s with
              db := { s.db with
                docs := s.db.docs ++ [⟨s.nextId, file.nome, file.caminho, file.hash⟩],
                raws := s.db.raws ++ [s.nextId] },
              nextId := s.nextId + 1 } : SysState).nextId :=
          fun c hc => Nat.lt_succ_of_lt (hchb c hc)
        have hcc := processarChunks_contar env s.nextId henv2 textos 0 _ [] hb2
        have hsp := processarChunks_spec env s.nextId textos 0
          { s with
            db := { s.db with
              docs := s.db.docs ++ [⟨s.nextId, file.nome, file.caminho, file.hash⟩],
              raws := s.db.raws ++ [s.nextId] },
            nextId := s.nextId + 1 } []
        have hdocs := processarChunks_docs env s.nextId textos 0
          { s with
            db := { s.db with
              docs := s.db.docs ++ [⟨s.nextId, file.nome, file.caminho, file.hash⟩],
              raws := s.db.raws ++ [s.nextId] },
            nextId := s.nextId + 1 } []
        by_cases hqe : (processarChunks env s.nextId textos 0
            { s with
              db := { s.db with
                docs := s.db.docs ++ [⟨s.nextId, file.nome, file.caminho, file.hash⟩],
                raws := s.db.raws ++ [s.nextId] },
              nextId := s.nextId + 1 } []).2.isEmpty
        · rw [if_pos hqe]
          have hq0 : queueSpec env (s.nextId + 1) textos = [] := by
            have := hsp.1
            rw [List.isEmpty_iff] at hqe
            rw [hqe] at this
            simpa using this.symm
          constructor
          · refine ⟨by rw [hsp.2]; exact hsome, by rw [hsp.2]; exact hinit,
              by rw [hsp.2]; exact hdim, ?_, ?_, hcc.2.2⟩
            · rw [hcc.2.1, hsp.2]
              show contarChunksComEmbedding s.db +
                (queueSpec env (s.nextId + 1) textos).length = _
              rw [hq0, hsync]
              simp
            · intro p hp
              rw [hsp.2] at hp
              have h1 := hmapb p hp
              rw [hcc.1]
              show p.1 < s.nextId + 1 + textos.length
              omega
          · intro d hd
            rw [hdocs.1] at hd
            rcases List.mem_append.mp hd with h1 | h2
            · exact Or.inr h1
            · rw [List.mem_singleton.mp h2]; exact Or.inl rfl
        · rw [if_neg hqe]
          have hq2 : (processarChunks env s.nextId textos 0
              { s with
                db := { s.db with
                  docs := s.db.docs ++ [⟨s.nextId, file.nome, file.caminho, file.hash⟩],
                  raws := s.db.raws ++ [s.nextId] },
                nextId := s.nextId + 1 } []).2 =
              queueSpec env (s.nextId + 1) textos := by
            rw [hsp.1]
            simp
          have hQne : queueSpec env (s.nextId + 1) textos ≠ [] := by
            intro hq0
            rw [List.isEmpty_iff] at hqe
            exact hqe (by rw [hq2, hq0])
          have hQdim : ∀ p ∈ queueSpec env (s.nextId + 1) textos,
              (p : Nat × Vec).2.length = D :=
            queueSpec_dim env D henv1 textos (s.nextId + 1)
          have hQids := queueSpec_ids env textos (s.nextId + 1)
          have hfreshQ : ∀ p ∈ queueSpec env (s.nextId + 1) textos,
              s.faiss.id_to_index.lookup (p : Nat × Vec).1 = none := by
            intro p hp
            apply lookup_none_of_keys_ne
            intro q hq
            have h1 := hmapb q hq
            have h2 := (hQids p hp).1
            omega
          have hadd := adicionar_fresco s.faiss (queueSpec env (s.nextId + 1) textos)
            D hinit hdim hQdim hfreshQ hQne
          have hre : adicionarEmbeddings (processarChunks env s.nextId textos 0
              { s with
                db := { s.db with
                  docs := s.db.docs ++ [⟨s.nextId, file.nome, file.caminho, file.hash⟩],
                  raws := s.db.raws ++ [s.nextId] },
                nextId := s.nextId + 1 } []).1.faiss
              (processarChunks env s.nextId textos 0
              { s with
                db := { s.db with
                  docs := s.db.docs ++ [⟨s.nextId, file.nome, file.caminho, file.hash⟩],
                  raws := s.db.raws ++ [s.nextId] },
                nextId := s.nextId + 1 } []).2 =
              adicionarEmbeddings s.faiss (queueSpec env (s.nextId + 1) textos) := by
            rw [hsp.2, hq2]
          rcases hm : adicionarEmbeddings s.faiss (queueSpec env (s.nextId + 1) textos)
            with ⟨o, f2⟩
          rw [hre, hm]
          have hf2 : f2 = (adicionarEmbeddings s.faiss
              (queueSpec env (s.nextId + 1) textos)).2 := by rw [hm]
          have hkey : estadoBom ({ (processarChunks env s.nextId textos 0
              { s with
                db := { s.db with
                  docs := s.db.docs ++ [⟨s.nextId, file.nome, file.caminho, file.hash⟩],
                  raws := s.db.raws ++ [s.nextId] },
                nextId := s.nextId + 1 } []).1 with faiss := f2 } : SysState) D ∧
              ∀ d ∈ ({ (processarChunks env s.nextId textos 0
              { s with
                db := { s.db with
                  docs := s.db.docs ++ [⟨s.nextId, file.nome, file.caminho, file.hash⟩],
                  raws := s.db.raws ++ [s.nextId] },
                nextId := s.nextId + 1 } []).1 with faiss := f2 } : SysState).db.docs,
                d.arquivo_nome = file.nome ∨ d ∈ s.db.docs := by
            constructor
            · refine ⟨?_, ?_, ?_, ?_, ?_, hcc.2.2⟩
              · show f2.indexIsSome = true
                rw [hf2, hadd.2.2.2.1]
                exact hsome
              · show f2.initFlag = true
                rw [hf2]
                exact hadd.2.2.1
              · show f2.index_dimension = D
                rw [hf2, hadd.2.1]
                exact hdim
              · show contarChunksComEmbedding _ = f2.vectors.length
                rw [hcc.2.1, hf2, hadd.1]
                show contarChunksComEmbedding s.db +
                  (queueSpec env (s.nextId + 1) textos).length = _
                rw [List.length_append, List.length_map, hsync]
              · intro p hp
                show p.1 < _
                rw [hcc.1]
                show p.1 < s.nextId + 1 + textos.length
                rw [hf2] at hp
                rcases hadd.2.2.2.2 p hp with h1 | ⟨q, hq, hq1⟩
                · have := hmapb p h1
                  omega
                · have := (hQids q hq).2
                  omega
            · intro d hd
              have hdd : d ∈ (processarChunks env s.nextId textos 0
                  { s with
                    db := { s.db with
                      docs := s.db.docs ++
                        [⟨s.nextId, file.nome, file.caminho, file.hash⟩],
                      raws := s.db.raws ++ [s.nextId] },
                    nextId := s.nextId + 1 } []).1.db.docs := hd
              rw [hdocs.1] at hdd
              rcases List.mem_append.mp hdd with h1 | h2
              · exact Or.inr h1
              · rw [List.mem_singleton.mp h2]; exact Or.inl rfl
          cases o <;> exact hkey

theorem indexarPastaLoop_preserva (env : Env) (D : Nat)
    (henv1 : ∀ t v, env.embed t = some v → v.length = D)
    (henv2 : ∀ u, env.updateFails u = false) :
    ∀ (files : List Arquivo) (s : SysState) (tot : Nat × Nat),
      estadoBom s D →
      (∀ file ∈ files, ∀ d ∈ s.db.docs, d.arquivo_nome ≠ file.nome) →
      files.Pairwise (fun a b => a.nome ≠ b.nome) →
      estadoBom (indexarPastaLoop env files s tot).2 D := by
  intro files
  induction files with
  | nil => intro s tot hbom _ _; exact hbom
  | cons file rest ih =>
    intro s tot hbom hnames hdist
    unfold indexarPastaLoop
    have hpre := indexarDocumento_preserva env D henv1 henv2 file s hbom
      (fun d hd => hnames file (List.mem_cons_self _ _) d hd)
    rcases List.pairwise_cons.mp hdist with ⟨hhead, htail⟩
    apply ih _ _ hpre.1
    · intro f2 hf2 d hd
      rcases hpre.2 d hd with h1 | h2
      · rw [h1]; exact hhead f2 hf2
      · exact hnames f2 (List.mem_cons_of_mem _ hf2) d h2
    · exact htail

/-- C1 amended: the consistency check runs at the START of
`indexar_pasta` (not after it), so the invariant as claimed fails —
see the counterexample — but the following holds: starting from a
healthy in-sync state, a run over files whose names are new to the
store (or left untouched), with a fixed-dimension provider and no
store-write failures, ends with the vector count again equal to the
embedded-chunk count; after a run that replaces a modified document or
hits a batch-add failure, the drift persists until the start of the
next run, whose opening check rebuilds the index. -/
theorem claim_C1_amended_sincronizacao_no_inicio (env : Env) (D : Nat)
    (files : List Arquivo) (s : SysState)
    (henv : envBemComportado env D)
    (hbom : estadoBom s D)
    (hnames : ∀ file ∈ files, ∀ d ∈ s.db.docs, d.arquivo_nome ≠ file.nome)
    (hdist : files.Pairwise (fun a b => a.nome ≠ b.nome)) :
    (obterEstatisticas (indexarPasta env files s).2.faiss).vetores =
      contarChunksComEmbedding (indexarPasta env files s).2.db := by
  obtain ⟨henv1, henv2⟩ := henv
  have hs : verificarSincronizacaoFaiss s = (true, s) := by
    unfold verificarSincronizacaoFaiss
    rw [if_neg (not_not_intro (by
      unfold obterEstatisticas
      rw [if_pos hbom.1]
      exact hbom.2.2.2.1.symm))]
  unfold indexarPasta
  rw [hs]
  have hfinal := indexarPastaLoop_preserva env D henv1 henv2 files s (0, 0)
    hbom hnames hdist
  unfold obterEstatisticas
  rw [if_pos hfinal.1]
  exact hfinal.2.2.2.1.symm

/-- Witness for the amended C1: a clean start plus one new one-chunk
text file ends in sync (one vector, one embedded chunk). -/
theorem claim_C1_amended_sincronizacao_no_inicio_witness :
    (envBemComportado envOk2 2 ∧
      estadoBom (SysState.mk ⟨[], [], []⟩ ⟨true, true, 2, [], [], []⟩ 0) 2 ∧
      (∀ file ∈ [Arquivo.mk "a.txt" "/p" "txt" 1 (some "x") (some ["x"])],
        ∀ d ∈ (SysState.mk ⟨[], [], []⟩ ⟨true, true, 2, [], [], []⟩ 0).db.docs,
          d.arquivo_nome ≠ file.nome) ∧
      List.Pairwise (fun a b : Arquivo => a.nome ≠ b.nome)
        [Arquivo.mk "a.txt" "/p" "txt" 1 (some "x") (some ["x"])]) ∧
    (obterEstatisticas (indexarPasta envOk2
        [Arquivo.mk "a.txt" "/p" "txt" 1 (some "x") (some ["x"])]
        (SysState.mk ⟨[], [], []⟩ ⟨true, true, 2, [], [], []⟩ 0)).2.faiss).vetores =
      contarChunksComEmbedding (indexarPasta envOk2
        [Arquivo.mk "a.txt" "/p" "txt" 1 (some "x") (some ["x"])]
        (SysState.mk ⟨[], [], []⟩ ⟨true, true, 2, [], [], []⟩ 0)).2.db := by
  have henv : envBemComportado envOk2 2 :=
    ⟨fun t v h => by cases h; rfl, fun u => rfl⟩
  have hbom : estadoBom (SysState.mk ⟨[], [], []⟩ ⟨true, true, 2, [], [], []⟩ 0) 2 :=
    ⟨rfl, rfl, rfl, rfl, by intro p hp; simp at hp, by intro c hc; simp at hc⟩
  have hnames : ∀ file ∈ [Arquivo.mk "a.txt" "/p" "txt" 1 (some "x") (some ["x"])],
      ∀ d ∈ (SysState.mk ⟨[], [], []⟩ ⟨true, true, 2, [], [], []⟩ 0).db.docs,
        d.arquivo_nome ≠ file.nome := by
    intro file hf d hd
    simp at hd
  have hdist : List.Pairwise (fun a b : Arquivo => a.nome ≠ b.nome)
      [Arquivo.mk "a.txt" "/p" "txt" 1 (some "x") (some ["x"])] := by
    simp
  exact ⟨⟨henv, hbom, hnames, hdist⟩,
    claim_C1_amended_sincronizacao_no_inicio envOk2 2
      [Arquivo.mk "a.txt" "/p" "txt" 1 (some "x") (some ["x"])]
      (SysState.mk ⟨[], [], []⟩ ⟨true, true, 2, [], [], []⟩ 0)
      henv hbom hnames hdist⟩

end Ragner
